import Mathlib

/-! Verification development for `vuk`, a render-graph layer over Vulkan.

Shallow embedding of the cache-collection schedule of `ContextImpl`
(`src/ContextImpl.hpp`), the pipeline create-info keys and their hashes
(`src/Pipeline.hpp`), the descriptor binding-flag bitset
(`PipelineBaseCreateInfoBase`) and the render graphs built by example 12
(`examples/12_rt_pipeline.cpp`). Frame counters and sizes are natural numbers; the
`unsigned` position arithmetic of the bitset is taken modulo `2 ^ 32`. Functions that can
throw return `Except`. Code that the sources use without containing it is either a
parameter or a definition whose comment starts with "Modelled from the spec".
-/

namespace vuk

/-! ## Generic cache (`Cache<T>`), frame-stamped entries -/

/-- Modelled from the spec: one entry of a `Cache<T>` (`Cache.hpp` is not among the
sources), that is the content hash of the create-info, the handle of the constructed
object and the frame at which the entry was last accessed. -/
structure CacheEntry where
  key : Nat
  value : Nat
  last_accessed_frame : Nat
deriving DecidableEq, Repr

/-- Modelled from the spec: a `Cache<T>` (`Cache.hpp` is not among the sources), seen as
the collection of its live entries. -/
structure Cache where
  entries : List CacheEntry
deriving DecidableEq, Repr

/-- Modelled from the spec: `Cache<T>::collect(current_frame, max_age)`, declared in
`Cache.hpp` which is not among the sources. It destroys every entry whose
`last_accessed_frame` is more than `max_age` frames behind `current_frame` and keeps
all the others. -/
def Cache.collect (c : Cache) (current_frame max_age : Nat) : Cache :=
  { entries := c.entries.filter
      (fun e => !decide (current_frame - e.last_accessed_frame > max_age)) }

/-- An entry is destroyed by a collection when it was live before and is not after. -/
def Cache.destroys (before after : Cache) (e : CacheEntry) : Prop :=
  e ∈ before.entries ∧ e ∉ after.entries

instance (before after : Cache) (e : CacheEntry) : Decidable (Cache.destroys before after e) := by
  unfold Cache.destroys
  infer_instance

/-! ## `ContextImpl`: the caches owned by a context and their collection -/

/-- The `Cache<...>` members of `ContextImpl`, in declaration order. -/
inductive CacheId where
  | pipelinebase_cache
  | pipeline_cache
  | compute_pipeline_cache
  | ray_tracing_pipeline_cache
  | renderpass_cache
  | transient_images
  | pool_cache
  | sampler_cache
  | shader_modules
  | descriptor_set_layouts
  | pipeline_layouts
deriving DecidableEq, Repr

/-- The cache members of `struct ContextImpl`. -/
structure ContextImpl where
  pipelinebase_cache : Cache
  pipeline_cache : Cache
  compute_pipeline_cache : Cache
  ray_tracing_pipeline_cache : Cache
  renderpass_cache : Cache
  transient_images : Cache
  pool_cache : Cache
  sampler_cache : Cache
  shader_modules : Cache
  descriptor_set_layouts : Cache
  pipeline_layouts : Cache
deriving DecidableEq, Repr

/-- Member access by identifier. -/
def ContextImpl.cache (ctx : ContextImpl) : CacheId → Cache
  | .pipelinebase_cache => ctx.pipelinebase_cache
  | .pipeline_cache => ctx.pipeline_cache
  | .compute_pipeline_cache => ctx.compute_pipeline_cache
  | .ray_tracing_pipeline_cache => ctx.ray_tracing_pipeline_cache
  | .renderpass_cache => ctx.renderpass_cache
  | .transient_images => ctx.transient_images
  | .pool_cache => ctx.pool_cache
  | .sampler_cache => ctx.sampler_cache
  | .shader_modules => ctx.shader_modules
  | .descriptor_set_layouts => ctx.descriptor_set_layouts
  | .pipeline_layouts => ctx.pipeline_layouts

/-- Member update by identifier. -/
def ContextImpl.setCache (ctx : ContextImpl) (id : CacheId) (c : Cache) : ContextImpl :=
  match id with
  | .pipelinebase_cache => { ctx with pipelinebase_cache := c }
  | .pipeline_cache => { ctx with pipeline_cache := c }
  | .compute_pipeline_cache => { ctx with compute_pipeline_cache := c }
  | .ray_tracing_pipeline_cache => { ctx with ray_tracing_pipeline_cache := c }
  | .renderpass_cache => { ctx with renderpass_cache := c }
  | .transient_images => { ctx with transient_images := c }
  | .pool_cache => { ctx with pool_cache := c }
  | .sampler_cache => { ctx with sampler_cache := c }
  | .shader_modules => { ctx with shader_modules := c }
  | .descriptor_set_layouts => { ctx with descriptor_set_layouts := c }
  | .pipeline_layouts => { ctx with pipeline_layouts := c }

/-- One call `member.collect(current_frame, max_age)` made by `ContextImpl::collect`. -/
structure CollectCall where
  target : CacheId
  current_frame : Nat
  max_age : Nat
deriving DecidableEq, Repr

/-- The constant `static constexpr uint32_t cache_collection_frequency = 16`. -/
def cache_collection_frequency : Nat := 16

/-- The sequence of `Cache::collect` calls that the body of
`ContextImpl::collect(absolute_frame)` performs: first the transient images with
maximum age 6, then the `switch` on `absolute_frame % cache_collection_frequency`
(cases 3 and 5 are commented out in the source, cases 7..15 do not exist). -/
def ContextImpl.collectCalls (absolute_frame : Nat) : List CollectCall :=
  let remainder := absolute_frame % cache_collection_frequency
  { target := .transient_images, current_frame := absolute_frame, max_age := 6 } ::
    (match remainder with
     | 0 => [{ target := .pipeline_cache, current_frame := absolute_frame,
               max_age := cache_collection_frequency }]
     | 1 => [{ target := .compute_pipeline_cache, current_frame := absolute_frame,
               max_age := cache_collection_frequency }]
     | 2 => [{ target := .renderpass_cache, current_frame := absolute_frame,
               max_age := cache_collection_frequency }]
     | 4 => [{ target := .pipeline_layouts, current_frame := absolute_frame,
               max_age := cache_collection_frequency }]
     | 6 => [{ target := .pool_cache, current_frame := absolute_frame,
               max_age := cache_collection_frequency }]
     | _ => [])

/-- Effect of one collect call on the context, for a given implementation
`cacheCollect` of `Cache<T>::collect`. -/
def ContextImpl.applyCall (cacheCollect : Cache → Nat → Nat → Cache)
    (ctx : ContextImpl) (call : CollectCall) : ContextImpl :=
  ctx.setCache call.target (cacheCollect (ctx.cache call.target) call.current_frame call.max_age)

/-- The function `void ContextImpl::collect(uint64_t absolute_frame)`: the calls of
`collectCalls` executed in order. `Cache<T>::collect` is not among the sources and is
a parameter; `Cache.collect` is its model from the spec. -/
def ContextImpl.collect (cacheCollect : Cache → Nat → Nat → Cache)
    (ctx : ContextImpl) (absolute_frame : Nat) : ContextImpl :=
  (ContextImpl.collectCalls absolute_frame).foldl (ContextImpl.applyCall cacheCollect) ctx

/-- The constant `const unsigned num_inflight_frames = 3` of `ExampleRunner::ExampleRunner`. -/
def num_inflight_frames : Nat := 3

/-- Context used to exercise the collection at frame 20: the transient images hold an
entry last accessed at frame 10 and one last accessed at frame 15. -/
def ctxFrame20 : ContextImpl :=
  { pipelinebase_cache := ⟨[⟨1, 1, 0⟩]⟩
    pipeline_cache := ⟨[⟨2, 2, 3⟩, ⟨3, 3, 19⟩]⟩
    compute_pipeline_cache := ⟨[]⟩
    ray_tracing_pipeline_cache := ⟨[]⟩
    renderpass_cache := ⟨[⟨4, 4, 1⟩]⟩
    transient_images := ⟨[⟨5, 5, 10⟩, ⟨6, 6, 15⟩]⟩
    pool_cache := ⟨[]⟩
    sampler_cache := ⟨[⟨7, 7, 0⟩]⟩
    shader_modules := ⟨[]⟩
    descriptor_set_layouts := ⟨[]⟩
    pipeline_layouts := ⟨[⟨8, 8, 2⟩]⟩ }

/-! ## `std::bitset<N>` and `PipelineBaseCreateInfoBase` (`src/Pipeline.hpp`) -/

/-- The macro `#define VUK_MAX_SETS 8`. -/
def VUK_MAX_SETS : Nat := 8

/-- Ways in which a member function of the embedding can fail: `std::bitset::set` and
`std::bitset::test` throw `std::out_of_range` for a position past the end, and indexing a
`std::array` past its end is undefined. A function that fails reports the fault only, not
the object as written up to the fault. -/
inductive Fault where
  | out_of_range
  | array_index_out_of_bounds
deriving DecidableEq, Repr

/-- Arithmetic of the type `unsigned`: values are taken modulo `2 ^ 32`. -/
def wrapUnsigned (x : Nat) : Nat := x % 2 ^ 32

/-- The type `std::bitset<N>`: `N` bits, addressed by position. -/
abbrev bitset (N : Nat) : Type := Fin N → Bool

/-- The member `std::bitset<N>::set(pos, val)`: writes bit `pos`, and throws
`std::out_of_range` when `pos` is not a position of the bitset. -/
def bitset.set {N : Nat} (b : bitset N) (pos : Nat) (val : Bool) : Except Fault (bitset N) :=
  if h : pos < N then .ok (Function.update b ⟨pos, h⟩ val) else .error .out_of_range

/-- The member `std::bitset<N>::test(pos)`: reads bit `pos`, and throws
`std::out_of_range` when `pos` is not a position of the bitset. -/
def bitset.test {N : Nat} (b : bitset N) (pos : Nat) : Except Fault Bool :=
  if h : pos < N then .ok (b ⟨pos, h⟩) else .error .out_of_range

/-- The struct `PipelineBaseCreateInfoBase`. The macro `VUK_MAX_BINDINGS` is defined in a
header that is not among the sources and is a parameter. -/
structure PipelineBaseCreateInfoBase (VUK_MAX_BINDINGS : Nat) where
  binding_flags : bitset (4 * VUK_MAX_SETS * VUK_MAX_BINDINGS)
  variable_count_max : Fin VUK_MAX_SETS → Nat

/-- The default member initialisers `binding_flags = {}` and `variable_count_max = {}`. -/
def PipelineBaseCreateInfoBase.default (VUK_MAX_BINDINGS : Nat) :
    PipelineBaseCreateInfoBase VUK_MAX_BINDINGS :=
  { binding_flags := fun _ => false
    variable_count_max := fun _ => 0 }

/-- The position expression `set * 4 * VUK_MAX_BINDINGS + binding * 4 + k`, evaluated in
the type `unsigned`. -/
def flagPosition (VUK_MAX_BINDINGS set binding k : Nat) : Nat :=
  wrapUnsigned (set * 4 * VUK_MAX_BINDINGS + binding * 4 + k)

/-- The conversion of `f & mask` to the `bool` parameter of `std::bitset::set`. -/
def maskedBit (f mask : Nat) : Bool := decide (f &&& mask ≠ 0)

/-- The member `set_binding_flags(set, binding, flags)`; `f` is
`static_cast<unsigned>(flags)`. -/
def PipelineBaseCreateInfoBase.set_binding_flags {VUK_MAX_BINDINGS : Nat}
    (self : PipelineBaseCreateInfoBase VUK_MAX_BINDINGS) (set binding f : Nat) :
    Except Fault (PipelineBaseCreateInfoBase VUK_MAX_BINDINGS) := do
  let b0 ← self.binding_flags.set (flagPosition VUK_MAX_BINDINGS set binding 0) (maskedBit f 0b1)
  let b1 ← b0.set (flagPosition VUK_MAX_BINDINGS set binding 1) (maskedBit f 0b10)
  let b2 ← b1.set (flagPosition VUK_MAX_BINDINGS set binding 2) (maskedBit f 0b100)
  let b3 ← b2.set (flagPosition VUK_MAX_BINDINGS set binding 3) (maskedBit f 0b1000)
  return { self with binding_flags := b3 }

/-- The loop `for (unsigned i = 0; i < VUK_MAX_BINDINGS; i++)` of
`set_variable_count_binding`, which clears the variable-count bit of every binding of
`set`. -/
def clearVariableCountBits {VUK_MAX_BINDINGS : Nat}
    (b : bitset (4 * VUK_MAX_SETS * VUK_MAX_BINDINGS)) (set : Nat) :
    Except Fault (bitset (4 * VUK_MAX_SETS * VUK_MAX_BINDINGS)) :=
  (List.range VUK_MAX_BINDINGS).foldlM
    (fun acc i => acc.set (flagPosition VUK_MAX_BINDINGS set i 3) false) b

/-- The assignment `variable_count_max[set] = max_descriptors` on
`std::array<uint32_t, VUK_MAX_SETS>`. -/
def arrayAssign (a : Fin VUK_MAX_SETS → Nat) (index value : Nat) :
    Except Fault (Fin VUK_MAX_SETS → Nat) :=
  if h : index < VUK_MAX_SETS then .ok (Function.update a ⟨index, h⟩ value)
  else .error .array_index_out_of_bounds

/-- The member `set_variable_count_binding(set, binding, max_descriptors)`. -/
def PipelineBaseCreateInfoBase.set_variable_count_binding {VUK_MAX_BINDINGS : Nat}
    (self : PipelineBaseCreateInfoBase VUK_MAX_BINDINGS) (set binding max_descriptors : Nat) :
    Except Fault (PipelineBaseCreateInfoBase VUK_MAX_BINDINGS) := do
  let cleared ← clearVariableCountBits self.binding_flags set
  let flagged ← cleared.set (flagPosition VUK_MAX_BINDINGS set binding 3) true
  let maxes ← arrayAssign self.variable_count_max set max_descriptors
  return { binding_flags := flagged, variable_count_max := maxes }

/-- A value with a different variable-count binding already set: `VUK_MAX_BINDINGS = 2`,
the variable-count bit of descriptor `(1, 0)` (position 11) is set and every
`variable_count_max` is 7. -/
def baseWithVariableCount : PipelineBaseCreateInfoBase 2 :=
  { binding_flags := fun i => decide (i.val = 11)
    variable_count_max := fun _ => 7 }

/-! ## Create-info keys and their hashes (`src/Pipeline.hpp`)

Scalar members (integers, `vk::Bool32`, enumerations, flag masks, handles, pointers and
`float` values) are represented by natural numbers, `operator==` on them being equality
of the values. The `vk::` structs come from `vulkan.hpp`, whose `operator==` compares every
member; they are represented member by member. -/

/-- The struct `vk::StencilOpState`. -/
structure StencilOpState where
  failOp : Nat
  passOp : Nat
  depthFailOp : Nat
  compareOp : Nat
  compareMask : Nat
  writeMask : Nat
  reference : Nat
deriving DecidableEq, Repr

/-- The struct `vk::PipelineInputAssemblyStateCreateInfo`. -/
structure PipelineInputAssemblyStateCreateInfo where
  sType : Nat
  pNext : Nat
  flags : Nat
  topology : Nat
  primitiveRestartEnable : Nat
deriving DecidableEq, Repr

/-- The struct `vk::PipelineDepthStencilStateCreateInfo`. -/
structure PipelineDepthStencilStateCreateInfo where
  sType : Nat
  pNext : Nat
  flags : Nat
  depthTestEnable : Nat
  depthWriteEnable : Nat
  depthCompareOp : Nat
  depthBoundsTestEnable : Nat
  stencilTestEnable : Nat
  front : StencilOpState
  back : StencilOpState
  minDepthBounds : Nat
  maxDepthBounds : Nat
deriving DecidableEq, Repr

/-- The struct `vk::PipelineRasterizationStateCreateInfo`. -/
structure PipelineRasterizationStateCreateInfo where
  sType : Nat
  pNext : Nat
  flags : Nat
  depthClampEnable : Nat
  rasterizerDiscardEnable : Nat
  polygonMode : Nat
  cullMode : Nat
  frontFace : Nat
  depthBiasEnable : Nat
  depthBiasConstantFactor : Nat
  depthBiasClamp : Nat
  depthBiasSlopeFactor : Nat
  lineWidth : Nat
deriving DecidableEq, Repr

/-- The struct `vk::PipelineColorBlendAttachmentState`. -/
structure PipelineColorBlendAttachmentState where
  blendEnable : Nat
  srcColorBlendFactor : Nat
  dstColorBlendFactor : Nat
  colorBlendOp : Nat
  srcAlphaBlendFactor : Nat
  dstAlphaBlendFactor : Nat
  alphaBlendOp : Nat
  colorWriteMask : Nat
deriving DecidableEq, Repr

/-- The struct `vk::PipelineColorBlendStateCreateInfo`; `pAttachments` is an address. -/
structure PipelineColorBlendStateCreateInfo where
  sType : Nat
  pNext : Nat
  flags : Nat
  logicOpEnable : Nat
  logicOp : Nat
  attachmentCount : Nat
  pAttachments : Nat
  blendConstants : Fin 4 → Nat
deriving DecidableEq

/-- The struct `vk::VertexInputBindingDescription`. -/
structure VertexInputBindingDescription where
  binding : Nat
  stride : Nat
  inputRate : Nat
deriving DecidableEq, Repr

/-- The struct `vk::VertexInputAttributeDescription`. -/
structure VertexInputAttributeDescription where
  location : Nat
  binding : Nat
  format : Nat
  offset : Nat
deriving DecidableEq, Repr

/-- The struct `vk::PipelineVertexInputStateCreateInfo`. -/
structure PipelineVertexInputStateCreateInfo where
  sType : Nat
  pNext : Nat
  flags : Nat
  vertexBindingDescriptionCount : Nat
  pVertexBindingDescriptions : Nat
  vertexAttributeDescriptionCount : Nat
  pVertexAttributeDescriptions : Nat
deriving DecidableEq, Repr

/-- The struct `vk::PipelineMultisampleStateCreateInfo`. -/
structure PipelineMultisampleStateCreateInfo where
  sType : Nat
  pNext : Nat
  flags : Nat
  rasterizationSamples : Nat
  sampleShadingEnable : Nat
  minSampleShading : Nat
  pSampleMask : Nat
  alphaToCoverageEnable : Nat
  alphaToOneEnable : Nat
deriving DecidableEq, Repr

/-- The struct `vk::PipelineDynamicStateCreateInfo`. -/
structure PipelineDynamicStateCreateInfo where
  sType : Nat
  pNext : Nat
  flags : Nat
  dynamicStateCount : Nat
  pDynamicStates : Nat
deriving DecidableEq, Repr

/-- The struct `vk::PushConstantRange`. -/
structure PushConstantRange where
  stageFlags : Nat
  offset : Nat
  size : Nat
deriving DecidableEq, Repr

/-- The struct `vk::PipelineLayoutCreateInfo`. -/
structure VkPipelineLayoutCreateInfo where
  sType : Nat
  pNext : Nat
  flags : Nat
  setLayoutCount : Nat
  pSetLayouts : Nat
  pushConstantRangeCount : Nat
  pPushConstantRanges : Nat
deriving DecidableEq, Repr

/-- The `std::hash` specialisations on scalar types used by the hashes of this file. -/
inductive ScalarKind where
  | uint32
  | int32
  | uint64
  | float32
  | enumeration
  | pointer
deriving DecidableEq, Repr

/-- What the hashes of `Pipeline.hpp` use and is not among the sources: `hash_combine`
of `Hash.hpp` (its seed and the `std::hash` values of its further arguments, in order),
the standard `std::hash` on scalars and on `std::string`, the hash of a `std::span` (from
the hashes of its elements), and the memory from which the span
`(pAttachments, attachmentCount)` of a colour-blend state is read. -/
structure HashEnv where
  hash_combine : Nat → List Nat → Nat
  stdHash : ScalarKind → Nat → Nat
  hashString : String → Nat
  hashSpan : List Nat → Nat
  attachmentsAt : Nat → Nat → List PipelineColorBlendAttachmentState

/-- The template `std::hash<vuk::fixed_vector<T, N>>` (and `std::hash<std::vector<T>>`):
`h = 0`, then `hash_combine(h, e)` for every element in order. -/
def hashFixedVector {α : Type} (env : HashEnv) (hashElem : α → Nat) (x : List α) : Nat :=
  x.foldl (fun h e => env.hash_combine h [hashElem e]) 0

/-- The template `std::hash<vk::Flags<BitType>>`: the hash of the mask. -/
def hashFlags (env : HashEnv) (x : Nat) : Nat := env.stdHash .uint32 x

/-- The specialisation `std::hash<vk::PipelineInputAssemblyStateCreateInfo>`. -/
def hashPipelineInputAssemblyStateCreateInfo (env : HashEnv)
    (x : PipelineInputAssemblyStateCreateInfo) : Nat :=
  env.hash_combine 0 [hashFlags env x.flags, env.stdHash .uint32 x.primitiveRestartEnable,
    env.stdHash .int32 x.topology]

/-- The specialisation `std::hash<vk::StencilOpState>`. -/
def hashStencilOpState (env : HashEnv) (x : StencilOpState) : Nat :=
  env.hash_combine 0 [env.stdHash .uint32 x.compareMask, env.stdHash .int32 x.compareOp,
    env.stdHash .int32 x.failOp, env.stdHash .int32 x.depthFailOp,
    env.stdHash .int32 x.passOp, env.stdHash .uint32 x.reference,
    env.stdHash .uint32 x.writeMask]

/-- The specialisation `std::hash<vk::PipelineDepthStencilStateCreateInfo>`. -/
def hashPipelineDepthStencilStateCreateInfo (env : HashEnv)
    (x : PipelineDepthStencilStateCreateInfo) : Nat :=
  env.hash_combine 0 [hashFlags env x.flags, hashStencilOpState env x.back,
    hashStencilOpState env x.front, env.stdHash .uint32 x.depthBoundsTestEnable,
    env.stdHash .int32 x.depthCompareOp, env.stdHash .uint32 x.depthTestEnable,
    env.stdHash .uint32 x.depthWriteEnable, env.stdHash .float32 x.maxDepthBounds,
    env.stdHash .float32 x.minDepthBounds, env.stdHash .uint32 x.stencilTestEnable]

/-- The specialisation `std::hash<vk::PipelineRasterizationStateCreateInfo>`. -/
def hashPipelineRasterizationStateCreateInfo (env : HashEnv)
    (x : PipelineRasterizationStateCreateInfo) : Nat :=
  env.hash_combine 0 [env.stdHash .uint32 x.depthClampEnable,
    env.stdHash .uint32 x.rasterizerDiscardEnable, env.stdHash .enumeration x.polygonMode,
    hashFlags env x.cullMode, env.stdHash .enumeration x.frontFace,
    env.stdHash .uint32 x.depthBiasEnable, env.stdHash .float32 x.depthBiasConstantFactor,
    env.stdHash .float32 x.depthBiasClamp, env.stdHash .float32 x.depthBiasSlopeFactor,
    env.stdHash .float32 x.lineWidth]

/-- The specialisation `std::hash<vk::PipelineColorBlendAttachmentState>`. -/
def hashPipelineColorBlendAttachmentState (env : HashEnv)
    (x : PipelineColorBlendAttachmentState) : Nat :=
  env.hash_combine 0 [env.stdHash .int32 x.alphaBlendOp, env.stdHash .uint32 x.blendEnable,
    env.stdHash .int32 x.colorBlendOp, env.stdHash .int32 x.dstAlphaBlendFactor,
    env.stdHash .int32 x.srcAlphaBlendFactor, env.stdHash .int32 x.dstColorBlendFactor,
    env.stdHash .int32 x.srcColorBlendFactor]

/-- The specialisation `std::hash<vk::PipelineColorBlendStateCreateInfo>`. -/
def hashPipelineColorBlendStateCreateInfo (env : HashEnv)
    (x : PipelineColorBlendStateCreateInfo) : Nat :=
  env.hash_combine 0 [hashFlags env x.flags,
    env.hashSpan ((env.attachmentsAt x.pAttachments x.attachmentCount).map
      (hashPipelineColorBlendAttachmentState env)),
    env.stdHash .float32 (x.blendConstants 0), env.stdHash .float32 (x.blendConstants 1),
    env.stdHash .float32 (x.blendConstants 2), env.stdHash .float32 (x.blendConstants 3),
    env.stdHash .int32 x.logicOp, env.stdHash .uint32 x.logicOpEnable]

/-- The specialisation `std::hash<vk::PushConstantRange>`. -/
def hashPushConstantRange (env : HashEnv) (x : PushConstantRange) : Nat :=
  env.hash_combine 0 [env.stdHash .uint32 x.offset, env.stdHash .uint32 x.size,
    env.stdHash .uint32 x.stageFlags]

/-- The comparison `operator==` of two `vuk::fixed_vector<T, N>`: equal sizes and
pairwise `==` elements (`FixedVector.hpp` is not among the sources; this is the
comparison of a sequence container). -/
def fixedVectorEq {α : Type} (eq : α → α → Bool) : List α → List α → Bool
  | [], [] => true
  | x :: xs, y :: ys => eq x y && fixedVectorEq eq xs ys
  | _, _ => false

/-- The struct `PipelineBaseCreateInfo : PipelineBaseCreateInfoBase`. -/
structure PipelineBaseCreateInfo (VUK_MAX_BINDINGS : Nat) extends
    PipelineBaseCreateInfoBase VUK_MAX_BINDINGS where
  rasterization_state : PipelineRasterizationStateCreateInfo
  color_blend_state : PipelineColorBlendStateCreateInfo
  color_blend_attachments : List PipelineColorBlendAttachmentState
  depth_stencil_state : PipelineDepthStencilStateCreateInfo
  shaders : List String
  shader_paths : List String

/-- The comparison `PipelineBaseCreateInfo::operator==`. -/
def PipelineBaseCreateInfo.operatorEq {VUK_MAX_BINDINGS : Nat}
    (self o : PipelineBaseCreateInfo VUK_MAX_BINDINGS) : Bool :=
  decide (self.shaders = o.shaders) &&
  decide (self.rasterization_state = o.rasterization_state) &&
  decide (self.color_blend_state = o.color_blend_state) &&
  decide (self.color_blend_attachments = o.color_blend_attachments) &&
  decide (self.depth_stencil_state = o.depth_stencil_state) &&
  decide (self.binding_flags = o.binding_flags) &&
  decide (self.variable_count_max = o.variable_count_max)

/-- The specialisation `std::hash<vuk::PipelineBaseCreateInfo>`. -/
def hashPipelineBaseCreateInfo {VUK_MAX_BINDINGS : Nat} (env : HashEnv)
    (x : PipelineBaseCreateInfo VUK_MAX_BINDINGS) : Nat :=
  env.hash_combine 0 [hashFixedVector env env.hashString x.shaders,
    hashPipelineColorBlendStateCreateInfo env x.color_blend_state,
    hashFixedVector env (hashPipelineColorBlendAttachmentState env) x.color_blend_attachments,
    hashPipelineDepthStencilStateCreateInfo env x.depth_stencil_state,
    hashPipelineRasterizationStateCreateInfo env x.rasterization_state]

/-- The struct `ComputePipelineCreateInfo : PipelineBaseCreateInfoBase`. -/
structure ComputePipelineCreateInfo (VUK_MAX_BINDINGS : Nat) extends
    PipelineBaseCreateInfoBase VUK_MAX_BINDINGS where
  shader : String
  shader_path : String

/-- The comparison `ComputePipelineCreateInfo::operator==`. -/
def ComputePipelineCreateInfo.operatorEq {VUK_MAX_BINDINGS : Nat}
    (self o : ComputePipelineCreateInfo VUK_MAX_BINDINGS) : Bool :=
  decide (self.shader = o.shader) &&
  decide (self.binding_flags = o.binding_flags) &&
  decide (self.variable_count_max = o.variable_count_max)

/-- The specialisation `std::hash<vuk::ComputePipelineCreateInfo>`. -/
def hashComputePipelineCreateInfo {VUK_MAX_BINDINGS : Nat} (env : HashEnv)
    (x : ComputePipelineCreateInfo VUK_MAX_BINDINGS) : Nat :=
  env.hash_combine 0 [env.hashString x.shader]

/-- The struct `PipelineInstanceCreateInfo`; `base` is the address held by the pointer
`PipelineBaseInfo*` and `render_pass` the handle value. -/
structure PipelineInstanceCreateInfo where
  base : Nat
  binding_descriptions : List VertexInputBindingDescription
  attribute_descriptions : List VertexInputAttributeDescription
  color_blend_attachments : List PipelineColorBlendAttachmentState
  input_assembly_state : PipelineInputAssemblyStateCreateInfo
  color_blend_state : PipelineColorBlendStateCreateInfo
  vertex_input_state : PipelineVertexInputStateCreateInfo
  multisample_state : PipelineMultisampleStateCreateInfo
  dynamic_state : PipelineDynamicStateCreateInfo
  render_pass : Nat
  subpass : Nat
deriving DecidableEq

/-- The comparison `PipelineInstanceCreateInfo::operator==`. -/
def PipelineInstanceCreateInfo.operatorEq (self o : PipelineInstanceCreateInfo) : Bool :=
  decide (self.base = o.base) &&
  decide (self.binding_descriptions = o.binding_descriptions) &&
  decide (self.attribute_descriptions = o.attribute_descriptions) &&
  decide (self.color_blend_attachments = o.color_blend_attachments) &&
  decide (self.color_blend_state = o.color_blend_state) &&
  decide (self.vertex_input_state = o.vertex_input_state) &&
  decide (self.multisample_state = o.multisample_state) &&
  decide (self.dynamic_state = o.dynamic_state) &&
  decide (self.render_pass = o.render_pass) &&
  decide (self.subpass = o.subpass)

/-- The specialisation `std::hash<vuk::PipelineInstanceCreateInfo>`. -/
def hashPipelineInstanceCreateInfo (env : HashEnv) (x : PipelineInstanceCreateInfo) : Nat :=
  env.hash_combine 0 [env.stdHash .pointer x.base, env.stdHash .uint64 x.render_pass,
    env.stdHash .uint32 x.subpass]

/-- The comparison and the hash of `vuk::DescriptorSetLayoutCreateInfo`, a type declared in
`Descriptor.hpp`, which is not among the sources: both are parameters, over any
representation `D` of the type. -/
structure DescriptorSetLayoutOps (D : Type) where
  operatorEq : D → D → Bool
  hash : D → Nat

/-- The struct `PipelineLayoutCreateInfo`, over a representation `D` of
`vuk::DescriptorSetLayoutCreateInfo`. -/
structure PipelineLayoutCreateInfo (D : Type) where
  plci : VkPipelineLayoutCreateInfo
  pcrs : List PushConstantRange
  dslcis : List D

/-- The comparison `PipelineLayoutCreateInfo::operator==`, a comparison of
`std::tie(plci.flags, pcrs, dslcis)`. -/
def PipelineLayoutCreateInfo.operatorEq {D : Type} (ops : DescriptorSetLayoutOps D)
    (self o : PipelineLayoutCreateInfo D) : Bool :=
  decide (self.plci.flags = o.plci.flags) &&
  decide (self.pcrs = o.pcrs) &&
  fixedVectorEq ops.operatorEq self.dslcis o.dslcis

/-- The specialisation `std::hash<vuk::PipelineLayoutCreateInfo>`. -/
def hashPipelineLayoutCreateInfo {D : Type} (env : HashEnv) (ops : DescriptorSetLayoutOps D)
    (x : PipelineLayoutCreateInfo D) : Nat :=
  env.hash_combine 0 [hashFixedVector env (hashPushConstantRange env) x.pcrs,
    hashFixedVector env ops.hash x.dslcis]

/-! ### Concrete values used to exercise the create-info keys -/

/-- A concrete `HashEnv`: the usual seed-mixing `hash_combine` on 64-bit `size_t`, identity
hashes on scalars, and a memory without colour-blend attachments. -/
def sampleHashEnv : HashEnv :=
  { hash_combine := fun seed hs =>
      hs.foldl (fun s h => (s ^^^ (h + 0x9e3779b9 + s * 64 + s / 4)) % 2 ^ 64) seed
    stdHash := fun _ v => v
    hashString := fun s => s.length
    hashSpan := fun hs => hs.foldl (fun s h => (s * 31 + h) % 2 ^ 64) 0
    attachmentsAt := fun _ _ => [] }

/-- A representation of `vuk::DescriptorSetLayoutCreateInfo` for the examples: a pair whose
first component alone is compared and hashed. -/
def sampleDescriptorSetLayoutOps : DescriptorSetLayoutOps (Nat × Nat) :=
  { operatorEq := fun x y => decide (x.1 = y.1)
    hash := fun x => x.1 }

/-- A colour-blend state without attachments. -/
def sampleColorBlendState : PipelineColorBlendStateCreateInfo :=
  { sType := 26, pNext := 0, flags := 0, logicOpEnable := 0, logicOp := 3,
    attachmentCount := 0, pAttachments := 0, blendConstants := fun _ => 0 }

/-- A pipeline-base create-info with `VUK_MAX_BINDINGS = 1` and one shader, loaded from
`path`. -/
def samplePipelineBase (path : String) : PipelineBaseCreateInfo 1 :=
  { binding_flags := fun _ => false
    variable_count_max := fun _ => 0
    rasterization_state :=
      { sType := 23, pNext := 0, flags := 0, depthClampEnable := 0,
        rasterizerDiscardEnable := 0, polygonMode := 0, cullMode := 2, frontFace := 0,
        depthBiasEnable := 0, depthBiasConstantFactor := 0, depthBiasClamp := 0,
        depthBiasSlopeFactor := 0, lineWidth := 1 }
    color_blend_state := sampleColorBlendState
    color_blend_attachments := []
    depth_stencil_state :=
      { sType := 25, pNext := 0, flags := 0, depthTestEnable := 1, depthWriteEnable := 1,
        depthCompareOp := 1, depthBoundsTestEnable := 0, stencilTestEnable := 0,
        front := ⟨0, 0, 0, 0, 0, 0, 0⟩, back := ⟨0, 0, 0, 0, 0, 0, 0⟩,
        minDepthBounds := 0, maxDepthBounds := 1 }
    shaders := ["void main() {}"]
    shader_paths := [path] }

/-- A compute create-info with `VUK_MAX_BINDINGS = 1` whose shader was loaded from `path`. -/
def sampleComputePipeline (path : String) : ComputePipelineCreateInfo 1 :=
  { binding_flags := fun _ => false
    variable_count_max := fun _ => 0
    shader := "void main() {}"
    shader_path := path }

/-- A graphics-pipeline key with the given primitive topology. -/
def samplePipelineInstance (topology : Nat) : PipelineInstanceCreateInfo :=
  { base := 4096
    binding_descriptions := [⟨0, 12, 0⟩]
    attribute_descriptions := [⟨0, 0, 106, 0⟩]
    color_blend_attachments := []
    input_assembly_state :=
      { sType := 20, pNext := 0, flags := 0, topology := topology,
        primitiveRestartEnable := 0 }
    color_blend_state := sampleColorBlendState
    vertex_input_state :=
      { sType := 19, pNext := 0, flags := 0, vertexBindingDescriptionCount := 1,
        pVertexBindingDescriptions := 8192, vertexAttributeDescriptionCount := 1,
        pVertexAttributeDescriptions := 8448 }
    multisample_state :=
      { sType := 24, pNext := 0, flags := 0, rasterizationSamples := 1,
        sampleShadingEnable := 0, minSampleShading := 0, pSampleMask := 0,
        alphaToCoverageEnable := 0, alphaToOneEnable := 0 }
    dynamic_state :=
      { sType := 27, pNext := 0, flags := 0, dynamicStateCount := 2, pDynamicStates := 8704 }
    render_pass := 77
    subpass := 0 }

/-- A pipeline-layout create-info whose single descriptor-set layout carries `tag` in its
uncompared component. -/
def samplePipelineLayout (tag : Nat) : PipelineLayoutCreateInfo (Nat × Nat) :=
  { plci := { sType := 30, pNext := 0, flags := 0, setLayoutCount := 0, pSetLayouts := 0,
              pushConstantRangeCount := 0, pPushConstantRanges := 0 }
    pcrs := [⟨1, 0, 64⟩]
    dslcis := [(5, tag)] }

/-! ## Render graphs (`examples/12_rt_pipeline.cpp`) and their compilation -/

/-- The access kinds that example 12 declares on its resources (`vuk::eTransferRead`, ...). -/
inductive Access where
  | eAccelerationStructureBuildRead
  | eAccelerationStructureBuildWrite
  | eRayTracingRead
  | eRayTracingWrite
  | eTransferRead
  | eTransferWrite
deriving DecidableEq, Repr

/-- Modelled from the spec: the direction (read or write) of a resource declaration, which
the `Read` and `Write` access kinds carry in their names; the declaration of `vuk::Access`
is not among the sources. -/
def Access.isWrite : Access → Bool
  | .eAccelerationStructureBuildRead => false
  | .eAccelerationStructureBuildWrite => true
  | .eRayTracingRead => false
  | .eRayTracingWrite => true
  | .eTransferRead => false
  | .eTransferWrite => true

/-- A resource declaration of a pass, written `"name"_buffer >> access` or
`"name"_image >> access` in the example (the spec's `{ name, direction, access-kind }`). -/
structure Resource where
  name : String
  access : Access
deriving DecidableEq, Repr

/-- A pass as given to `add_pass`: its `.resources` (the `.execute` callback plays no part
in the ordering). -/
structure Pass where
  resources : List Resource
deriving DecidableEq, Repr

/-- A `vuk::RenderGraph` as built by the examples: its name, the names bound by
`attach_in`, `attach_buffer` and `attach_image`, and its own passes in declaration order.
The passes of the fragments behind the futures given to `attach_in` are not listed: such a
name counts as an external binding. -/
structure RenderGraph where
  name : String
  attachments : List String
  passes : List Pass
deriving DecidableEq, Repr

/-- The graph `as_build` built by the `setup` callback of example 12. -/
def as_build : RenderGraph :=
  { name := "as_build"
    attachments := ["verts", "inds", "blas_buf", "tlas_buf"]
    passes :=
      [ { resources :=
            [ ⟨"blas_buf", .eAccelerationStructureBuildWrite⟩,
              ⟨"verts", .eAccelerationStructureBuildRead⟩,
              ⟨"inds", .eAccelerationStructureBuildRead⟩ ] },
        { resources :=
            [ ⟨"blas_buf+", .eAccelerationStructureBuildRead⟩,
              ⟨"tlas_buf", .eAccelerationStructureBuildWrite⟩ ] } ] }

/-- The graph `rg("12")` built by the `render` callback of example 12. -/
def rg12 : RenderGraph :=
  { name := "12"
    attachments := ["12_rt", "tlas", "12_rt_target"]
    passes :=
      [ { resources := [ ⟨"tlas", .eAccelerationStructureBuildWrite⟩ ] },
        { resources :=
            [ ⟨"12_rt_target", .eRayTracingWrite⟩, ⟨"tlas+", .eRayTracingRead⟩ ] },
        { resources :=
            [ ⟨"12_rt_target+", .eTransferRead⟩, ⟨"12_rt", .eTransferWrite⟩ ] } ] }

/-- The errors of a compilation (spec, error taxonomy): an unresolved name, naming the
dangling resource, and a dependency cycle. -/
inductive CompileError where
  | unresolved (name : String)
  | cycle
deriving DecidableEq, Repr

/-- Modelled from the spec: the canonical resource identity of a name. A trailing marker
`+` denotes the resource after its most recent write, so the identity is the name without
its trailing markers. The name-resolution code of the compiler is not among the sources. -/
def resourceOf (name : String) : String :=
  String.mk (name.data.reverse.dropWhile (fun c => c == '+')).reverse

/-- Modelled from the spec: whether a pass declares a write of the resource `r`. -/
def Pass.writes (p : Pass) (r : String) : Bool :=
  p.resources.any (fun d => d.access.isWrite && resourceOf d.name == r)

/-- Modelled from the spec: whether a pass declares a read of the resource `r`. -/
def Pass.reads (p : Pass) (r : String) : Bool :=
  p.resources.any (fun d => !d.access.isWrite && resourceOf d.name == r)

/-- Modelled from the spec: the latest prior write of resource `r` seen from pass `j`, that
is the last pass declared before `j` which writes `r` (name resolution, step 2 of the
compiler, which is not among the sources). -/
def latestPriorWrite (passes : List Pass) (j : Nat) (r : String) : Option Nat :=
  ((List.range j).filter (fun i => (passes.getD i ⟨[]⟩).writes r)).getLast?

/-- Modelled from the spec: resolution of one declaration of pass `j` (step 2 of the
compiler, not among the sources). The declaration binds to the latest prior write of its
resource in declaration order, which gives a dependency edge from that pass; with no
prior write it binds to the external binding of its name, and a name without one is a
compile error naming it. The result is the pass depended on, if any. -/
def resolveDeclaration (g : RenderGraph) (j : Nat) (d : Resource) :
    Except CompileError (Option Nat) :=
  match latestPriorWrite g.passes j (resourceOf d.name) with
  | some i => .ok (some i)
  | none =>
    if g.attachments.contains d.name then .ok none else .error (.unresolved d.name)

/-- Modelled from the spec: the passes that pass `j` depends on through write-to-read
and write-to-write edges, from the resolution of each of its declarations. -/
def passDependencies (g : RenderGraph) (j : Nat) : Except CompileError (List Nat) := do
  let bound ← ((g.passes.getD j ⟨[]⟩).resources).mapM (resolveDeclaration g j)
  return bound.filterMap id

/-- Modelled from the spec: whether pass `j` can be scheduled next, that is it is not
scheduled yet and all the passes it depends on are. -/
def readyPass (deps : List (List Nat)) (emitted : List Nat) (j : Nat) : Bool :=
  !emitted.contains j && (deps.getD j []).all (fun i => emitted.contains i)

/-- Modelled from the spec: the topological ordering of the passes by their dependency
edges, ties broken by declaration order (step 3 of the compiler, not among the sources):
at each step the first declared pass that is ready is scheduled; when passes remain and
none is ready the dependencies are cyclic. -/
def schedulePasses (deps : List (List Nat)) : Nat → List Nat → Except CompileError (List Nat)
  | 0, emitted => .ok emitted
  | remaining + 1, emitted =>
    match (List.range deps.length).find? (readyPass deps emitted) with
    | some j => schedulePasses deps remaining (emitted ++ [j])
    | none => .error .cycle

/-- Modelled from the spec: the pass order computed by `RenderGraph::compile`, whose source
is not among the sources: name resolution of every declaration, then topological
ordering of the passes. The result lists the pass indices in execution order. -/
def RenderGraph.compile (g : RenderGraph) : Except CompileError (List Nat) := do
  let deps ← (List.range g.passes.length).mapM (passDependencies g)
  schedulePasses deps g.passes.length []

/-- In the order `order`, pass `a` executes before pass `b`. -/
def executesBefore (order : List Nat) (a b : Nat) : Prop :=
  ∃ i j : Nat, i < j ∧ order[i]? = some a ∧ order[j]? = some b

/-- A graph in which one resource is written by its first pass, written again by its
second pass and read by its third pass. -/
def twoWritesThenRead : RenderGraph :=
  { name := "two_writes_then_read"
    attachments := ["X", "Y"]
    passes :=
      [ { resources := [ ⟨"X", .eTransferWrite⟩ ] },
        { resources := [ ⟨"Y", .eTransferRead⟩, ⟨"X+", .eTransferWrite⟩ ] },
        { resources := [ ⟨"X++", .eTransferRead⟩ ] } ] }

/-! ## The collection schedule over consecutive frames -/

/-- Whether `ContextImpl::collect(absolute_frame)` calls `collect` on the cache `id`. -/
def ContextImpl.collects (absolute_frame : Nat) (id : CacheId) : Bool :=
  (ContextImpl.collectCalls absolute_frame).any (fun call => decide (call.target = id))

/-- The number of `collect` calls that `ContextImpl::collect(absolute_frame)` makes on the
cache `id`. -/
def ContextImpl.collectCount (absolute_frame : Nat) (id : CacheId) : Nat :=
  ((ContextImpl.collectCalls absolute_frame).filter
    (fun call => decide (call.target = id))).length

/-- The `case` labels of the `switch` in `ContextImpl::collect` paired with the cache that
each one collects. -/
def periodicSchedule : List (CacheId × Nat) :=
  [(.pipeline_cache, 0), (.compute_pipeline_cache, 1), (.renderpass_cache, 2),
   (.pipeline_layouts, 4), (.pool_cache, 6)]

/-- The calls `collect(start)`, `collect(start + 1)`, ..., `collect(start + n - 1)`, one per
consecutive frame, with no access to any entry in between. -/
def ContextImpl.collectFrames (cacheCollect : Cache → Nat → Nat → Cache)
    (ctx : ContextImpl) (start : Nat) : Nat → ContextImpl
  | 0 => ctx
  | n + 1 =>
    ContextImpl.collect cacheCollect (ContextImpl.collectFrames cacheCollect ctx start n)
      (start + n)

/-! ## The variable-count invariant of `PipelineBaseCreateInfoBase` -/

/-- In every set at most one binding has the variable-count flag bit (bit 3, `0x8`) set. -/
def PipelineBaseCreateInfoBase.atMostOneVariableCount {VUK_MAX_BINDINGS : Nat}
    (self : PipelineBaseCreateInfoBase VUK_MAX_BINDINGS) : Prop :=
  ∀ set b1 b2 : Nat, set < VUK_MAX_SETS → b1 < VUK_MAX_BINDINGS → b2 < VUK_MAX_BINDINGS →
    self.binding_flags.test (set * 4 * VUK_MAX_BINDINGS + b1 * 4 + 3) = .ok true →
    self.binding_flags.test (set * 4 * VUK_MAX_BINDINGS + b2 * 4 + 3) = .ok true → b1 = b2

/-! ## Use chains, submission and futures -/

/-- Modelled from the spec: the use chain of the resource `r` for the execution order
`order`, that is the ordered sequence of (pass, declaration) pairs that touch `r`
(use-chain construction, step 4 of the compiler, which is not among the sources). -/
def useChain (passes : List Pass) (order : List Nat) (r : String) : List (Nat × Resource) :=
  (order.map (fun p =>
    ((passes.getD p ⟨[]⟩).resources.filter (fun d => resourceOf d.name == r)).map
      (fun d => (p, d)))).flatten

/-- Modelled from the spec: the logical resources that the passes of a graph touch, each
listed once, in the order of their first declaration. -/
def RenderGraph.resources (g : RenderGraph) : List String :=
  ((g.passes.map (fun p => p.resources.map (fun d => resourceOf d.name))).flatten).eraseDups

/-- Modelled from the spec: the use chains exposed by a compiled graph (`get_use_chains`),
one per logical resource, in execution order; the compiler is not among the sources. -/
def RenderGraph.useChains (g : RenderGraph) :
    Except CompileError (List (String × List (Nat × Resource))) := do
  let order ← g.compile
  return g.resources.map (fun r => (r, useChain g.passes order r))

/-- Modelled from the spec: the submission of a graph, whose code is not among the
sources. The graph is compiled first; a `CompileError` is fatal, the graph is not
submitted and nothing is executed (`none`); otherwise the execution engine walks the
compiled pass order (`some order`). -/
def RenderGraph.submit (g : RenderGraph) : Option (List Nat) :=
  match g.compile with
  | .ok order => some order
  | .error _ => none

/-- Modelled from the spec: a `vuk::Future` built from a render graph,
`Future(fragment, output_name)`, that is the graph fragment it wraps and the name of its
externally visible result (the declaration of the type is not among the sources). -/
structure Future where
  fragment : RenderGraph
  output_name : String
deriving DecidableEq, Repr

/-- The future `vuk::Future(std::make_shared<vuk::RenderGraph>(std::move(as_build)),
"tlas_buf+")` enqueued by the `setup` callback of example 12. -/
def setupFuture : Future := { fragment := as_build, output_name := "tlas_buf+" }

/-- The future `vuk::Future{ std::make_unique<vuk::RenderGraph>(std::move(rg)),
"12_rt_final" }` returned by the `render` callback of example 12. -/
def renderFuture : Future := { fragment := rg12, output_name := "12_rt_final" }

/-- The names that a graph defines: the names attached to it, and for every write declared
by one of its passes the written name followed by the marker `+`. -/
def RenderGraph.definedNames (g : RenderGraph) : List String :=
  g.attachments ++
    ((g.passes.map (fun p =>
      (p.resources.filter (fun d => d.access.isWrite)).map (fun d => d.name ++ "+"))).flatten)

/-- Whether the graph defines the name `n`. -/
def RenderGraph.definesName (g : RenderGraph) (n : String) : Bool :=
  g.definedNames.contains n

/-- The graph `as_build` of example 12 without the binding of `verts`: its first pass reads
`verts`, which no pass writes. -/
def asBuildWithoutVerts : RenderGraph :=
  { as_build with attachments := ["inds", "blas_buf", "tlas_buf"] }

/-! ## `PipelineBaseCreateInfo::add_shader` -/

/-- Modelled from the spec: the member `vuk::fixed_vector<T, N>::emplace_back`
(`FixedVector.hpp` is not among the sources), the append of a sequence container with the
fixed capacity `N`: the element is stored after the last one, and past the capacity the
store falls outside the array that holds the elements. -/
def fixedVectorEmplaceBack {α : Type} (capacity : Nat) (v : List α) (x : α) :
    Except Fault (List α) :=
  if v.length < capacity then .ok (v ++ [x]) else .error .array_index_out_of_bounds

/-- The member `PipelineBaseCreateInfo::add_shader(source, filename)`; `shaders` and
`shader_paths` are `vuk::fixed_vector<std::string, 5>`. -/
def PipelineBaseCreateInfo.add_shader {VUK_MAX_BINDINGS : Nat}
    (self : PipelineBaseCreateInfo VUK_MAX_BINDINGS) (source filename : String) :
    Except Fault (PipelineBaseCreateInfo VUK_MAX_BINDINGS) := do
  let shaders ← fixedVectorEmplaceBack 5 self.shaders source
  let shader_paths ← fixedVectorEmplaceBack 5 self.shader_paths filename
  return { self with shaders := shaders, shader_paths := shader_paths }

/-! ## Image usage flags (`include/vuk/Image.hpp`) -/

/-- The enumeration `vuk::ImageUsageFlagBits`. -/
inductive ImageUsageFlagBits
  | eTransferSrc
  | eTransferDst
  | eSampled
  | eStorage
  | eColorAttachment
  | eDepthStencilAttachment
  | eTransientAttachment
  | eInputAttachment
  | eShadingRateImageNV
  | eFragmentDensityMapEXT
  deriving DecidableEq, Repr

/-- Modelled from the spec: the value of each enumerator of `ImageUsageFlagBits`, which the
source sets to the constant `VK_IMAGE_USAGE_*` of the same meaning; the constants are those
of the Vulkan headers (`vulkan_core.h`, not among the sources). -/
def ImageUsageFlagBits.value : ImageUsageFlagBits → Nat
  | .eTransferSrc => 0x00000001
  | .eTransferDst => 0x00000002
  | .eSampled => 0x00000004
  | .eStorage => 0x00000008
  | .eColorAttachment => 0x00000010
  | .eDepthStencilAttachment => 0x00000020
  | .eTransientAttachment => 0x00000040
  | .eInputAttachment => 0x00000080
  | .eShadingRateImageNV => 0x00000100
  | .eFragmentDensityMapEXT => 0x00000200

/-- Modelled from the spec: the class template `vuk::Flags<BitType>` (`Types.hpp` is not
among the sources), a bit mask of the underlying unsigned type of the enumeration. -/
structure Flags where
  m_mask : Nat
  deriving DecidableEq, Repr

/-- The type `ImageUsageFlags = Flags<ImageUsageFlagBits>`. -/
abbrev ImageUsageFlags := Flags

/-- Modelled from the spec: the converting constructor `Flags(BitType bit)`. -/
def Flags.ofBit (bit : ImageUsageFlagBits) : ImageUsageFlags := ⟨bit.value⟩

/-- Modelled from the spec: `Flags::operator|`. -/
def Flags.or (lhs rhs : Flags) : Flags := ⟨lhs.m_mask ||| rhs.m_mask⟩

/-- Modelled from the spec: `Flags::operator&`. -/
def Flags.and (lhs rhs : Flags) : Flags := ⟨lhs.m_mask &&& rhs.m_mask⟩

/-- Modelled from the spec: `Flags::operator^`. -/
def Flags.xor (lhs rhs : Flags) : Flags := ⟨lhs.m_mask ^^^ rhs.m_mask⟩

/-- Modelled from the spec: `Flags::operator bool`, true when some bit is set. -/
def Flags.toBool (f : Flags) : Bool := f.m_mask != 0

/-- The operator `operator|(ImageUsageFlagBits bit0, ImageUsageFlagBits bit1)`, which
returns `ImageUsageFlags(bit0) | bit1`. -/
def ImageUsageFlagBits.or (bit0 bit1 : ImageUsageFlagBits) : ImageUsageFlags :=
  (Flags.ofBit bit0).or (Flags.ofBit bit1)

/-- The operator `operator&(ImageUsageFlagBits bit0, ImageUsageFlagBits bit1)`, which
returns `ImageUsageFlags(bit0) & bit1`. -/
def ImageUsageFlagBits.and (bit0 bit1 : ImageUsageFlagBits) : ImageUsageFlags :=
  (Flags.ofBit bit0).and (Flags.ofBit bit1)

/-- The operator `operator^(ImageUsageFlagBits bit0, ImageUsageFlagBits bit1)`, which
returns `ImageUsageFlags(bit0) ^ bit1`. -/
def ImageUsageFlagBits.xor (bit0 bit1 : ImageUsageFlagBits) : ImageUsageFlags :=
  (Flags.ofBit bit0).xor (Flags.ofBit bit1)

/-- The position of the single bit of an enumerator of `ImageUsageFlagBits`. -/
def ImageUsageFlagBits.bitIndex : ImageUsageFlagBits → Nat
  | .eTransferSrc => 0
  | .eTransferDst => 1
  | .eSampled => 2
  | .eStorage => 3
  | .eColorAttachment => 4
  | .eDepthStencilAttachment => 5
  | .eTransientAttachment => 6
  | .eInputAttachment => 7
  | .eShadingRateImageNV => 8
  | .eFragmentDensityMapEXT => 9

/-- Whether a set of usage flags contains the usage `bit`, that is whether the bit of
`bit` is set in the mask. -/
def Flags.contains (f : ImageUsageFlags) (bit : ImageUsageFlagBits) : Bool :=
  f.m_mask.testBit bit.bitIndex

/-! ## Name resolution in the graphs of example 12 -/

/-- Whether every resource name declared by a pass of `g` is a name attached to `g` or a
name `n` followed by `+` where a pass declared earlier in `g` writes `n`. -/
def RenderGraph.declarationsResolve (g : RenderGraph) : Bool :=
  (List.range g.passes.length).all fun j =>
    (g.passes.getD j ⟨[]⟩).resources.all fun d =>
      g.attachments.contains d.name ||
        (List.range j).any fun i =>
          (g.passes.getD i ⟨[]⟩).resources.any fun w =>
            w.access.isWrite && d.name == w.name ++ "+"

/-! ## The example browser (`examples/example_browser.cpp`), render-all mode -/

/-- Modelled from the spec: a `vuk::Name` (`Name.hpp` is not among the sources), an
interned string; names are equal when their strings are. -/
abbrev Name := String

/-- Modelled from the spec: `Name::is_invalid`, true of the default-constructed name, which
is the name of the empty string. -/
def Name.is_invalid (n : Name) : Bool := n == ""

/-- The call `chosen_resource.resize(examples.size())` of `std::vector<vuk::Name>`: the new
elements are default-constructed names. -/
def vectorResize (v : List Name) (n : Nat) : List Name :=
  v.take n ++ List.replicate (n - v.length) ""

/-- The state that the loop over the examples of the render-all branch builds: the names
given to `attach_in` and `attach_swapchain` on the graph `rg("runner")`, in call order, and
the global `chosen_resource`. -/
structure RunnerFrame where
  attached : List Name
  chosen_resource : List Name
deriving DecidableEq, Repr

/-- One iteration of `for (auto& ex : examples)` in the render-all branch, for the example
of index `i` and of name `exName`. `clicked i` is the name that a pressed button of the
window of example `i` assigns to `chosen_resource[i]` in this frame, if one is pressed
(lines 188 to 195); the rest is lines 203 to 212. -/
def renderAllExample (clicked : Nat → Option Name) (st : RunnerFrame) (i : Nat)
    (exName : String) : RunnerFrame :=
  let attachment_name_out : Name := exName ++ "_final"
  let chosen_resource :=
    match clicked i with
    | some n => st.chosen_resource.set i n
    | none => st.chosen_resource
  let chosen_resource :=
    if Name.is_invalid (chosen_resource.getD i "") then
      chosen_resource.set i attachment_name_out
    else chosen_resource
  if chosen_resource.getD i "" != attachment_name_out then
    { attached := st.attached ++ [attachment_name_out, "_"],
      chosen_resource := chosen_resource }
  else
    { attached := st.attached ++ [attachment_name_out],
      chosen_resource := chosen_resource }

/-- The loop `for (auto& ex : examples)` with its counter `i`. -/
def renderAllLoop (clicked : Nat → Option Name) :
    List String → Nat → RunnerFrame → RunnerFrame
  | [], _, st => st
  | exName :: rest, i, st =>
    renderAllLoop clicked rest (i + 1) (renderAllExample clicked st i exName)

/-- One frame of the render-all branch of `ExampleRunner::render`, as far as the names
attached to the graph `rg("runner")` go: the loop over the examples, then
`rg.attach_swapchain("SWAPCHAIN", swapchain)`. -/
def renderAll (examples : List String) (clicked : Nat → Option Name)
    (chosen_resource : List Name) : RunnerFrame :=
  let st := renderAllLoop clicked examples 0 ⟨[], chosen_resource⟩
  { st with attached := st.attached ++ ["SWAPCHAIN"] }

/-- Whether the window of example `i` shows a resource other than the final output of the
example: the name in `chosen_resource[i]` at line 203, after a pressed button has written
it, is valid and is not `attachment_name_out`. -/
def showsOtherResource (clicked : Nat → Option Name) (chosen_resource : List Name)
    (i : Nat) (exName : String) : Bool :=
  let chosen := (clicked i).getD (chosen_resource.getD i "")
  chosen != "" && chosen != exName ++ "_final"

/-! ## The example browser: button labels -/

/-- The enumeration `vuk::SampleCountFlagBits`. -/
inductive SampleCountFlagBits
  | e1 | e2 | e4 | e8 | e16 | e32 | e64
  deriving DecidableEq, Repr

/-- Modelled from the spec: `vuk::Samples` (`Types.hpp` is not among the sources), a sample
count or the request to infer it; `s != Samples::eInfer` is `!s.infer`. -/
structure Samples where
  count : SampleCountFlagBits
  infer : Bool
deriving DecidableEq, Repr

/-- Modelled from the spec: the entry of `get_bound_attachments()` for a name, of which
the browser reads `attachment.sample_count`. -/
structure AttachmentInfo where
  sample_count : Samples
deriving DecidableEq, Repr

/-- The first loop over the use chains (lines 149 to 159): `disable` becomes true when a
use chain has a bound attachment whose sample count is neither inferred nor `e1`. The use
chains are listed in iteration order, `bound_attachments.find(key)` is `List.lookup`. -/
def browserDisable {U : Type} (use_chains : List (Name × U))
    (bound_attachments : List (Name × AttachmentInfo)) : Bool :=
  use_chains.foldl
    (fun disable kv =>
      match bound_attachments.lookup kv.1 with
      | none => disable
      | some att_info =>
        let samples :=
          if !att_info.sample_count.infer then att_info.sample_count.count
          else SampleCountFlagBits.e1
        disable || (samples != SampleCountFlagBits.e1))
    false

/-- The string `btn_id` that lines 165 to 184 build for a use chain with a bound
attachment. `compute_usage` is `RenderGraph::compute_usage`, whose code is not among the
sources. -/
def buttonId {U : Type} (compute_usage : U → ImageUsageFlags) (attachment_name_out : Name)
    (disable : Bool) (key : Name) (use_refs : U) : String :=
  let btn_id := ""
  let prevent_disable := false
  let (prevent_disable, btn_id) :=
    if key == attachment_name_out then (true, "F")
    else
      let usage := compute_usage use_refs
      if (usage.and (Flags.ofBit .eColorAttachment)).toBool then
        (prevent_disable, btn_id ++ "C")
      else if (usage.and (Flags.ofBit .eDepthStencilAttachment)).toBool then
        (prevent_disable, btn_id ++ "D")
      else if (usage.and (ImageUsageFlagBits.or .eTransferSrc .eTransferDst)).toBool then
        (prevent_disable, btn_id ++ "X")
      else (prevent_disable, btn_id)
  if disable && !prevent_disable then btn_id ++ " (MS)"
  else btn_id ++ ("##" ++ key)

/-- The labels that the browser draws for a fragment (lines 147 to 202): nothing unless the
fragment has more than one use chain; then, for each use chain whose key has a bound
attachment, the key and its `btn_id`. -/
def browserButtons {U : Type} (compute_usage : U → ImageUsageFlags)
    (attachment_name_out : Name) (use_chains : List (Name × U))
    (bound_attachments : List (Name × AttachmentInfo)) : List (Name × String) :=
  if use_chains.length > 1 then
    let disable := browserDisable use_chains bound_attachments
    use_chains.filterMap fun kv =>
      match bound_attachments.lookup kv.1 with
      | none => none
      | some _ => some (kv.1, buttonId compute_usage attachment_name_out disable kv.1 kv.2)
  else []

/-- The label letter that the usage flags of a use chain select: `C` for a colour
attachment, else `D` for a depth-stencil attachment, else `X` for a transfer source or
destination, else none; `F` for the final output name whatever the usage. -/
def labelLetter (attachment_name_out key : Name) (usage : ImageUsageFlags) : String :=
  if key = attachment_name_out then "F"
  else if usage.contains .eColorAttachment then "C"
  else if usage.contains .eDepthStencilAttachment then "D"
  else if usage.contains .eTransferSrc || usage.contains .eTransferDst then "X"
  else ""

/-! # Theorems -/

/-! ## Theorems: cache collection -/

/-- Every cache of the context is, after `ContextImpl::collect`, either untouched or
the result of one `Cache::collect` call with maximum age 6 or 16. -/
theorem ContextImpl.collect_cache_cases (cc : Cache → Nat → Nat → Cache)
    (ctx : ContextImpl) (F : Nat) (id : CacheId) :
    (ContextImpl.collect cc ctx F).cache id = ctx.cache id ∨
    (ContextImpl.collect cc ctx F).cache id = cc (ctx.cache id) F 6 ∨
    (ContextImpl.collect cc ctx F).cache id = cc (ctx.cache id) F 16 := by
  unfold ContextImpl.collect ContextImpl.collectCalls
  simp only []
  split <;> cases id <;>
    simp [ContextImpl.applyCall, ContextImpl.setCache, ContextImpl.cache,
      cache_collection_frequency]

/-- The transient images are collected by every call, with maximum age 6, whatever
`Cache::collect` does. -/
theorem ContextImpl.collect_transient (cc : Cache → Nat → Nat → Cache)
    (ctx : ContextImpl) (F : Nat) :
    (ContextImpl.collect cc ctx F).transient_images = cc ctx.transient_images F 6 := by
  unfold ContextImpl.collect ContextImpl.collectCalls
  simp only []
  split <;>
    simp [ContextImpl.applyCall, ContextImpl.setCache, ContextImpl.cache]

/-- Updating one member leaves every other member as it was. -/
theorem ContextImpl.setCache_cache_of_ne (ctx : ContextImpl) (id other : CacheId) (c : Cache)
    (h : other ≠ id) : (ctx.setCache id c).cache other = ctx.cache other := by
  cases id <;> cases other <;> first | exact absurd rfl h | rfl

/-- A sequence of collect calls none of which targets `id` leaves the cache `id` as it was. -/
theorem ContextImpl.foldl_applyCall_cache (cc : Cache → Nat → Nat → Cache)
    (calls : List CollectCall) (ctx : ContextImpl) (id : CacheId)
    (h : ∀ call ∈ calls, call.target ≠ id) :
    (calls.foldl (ContextImpl.applyCall cc) ctx).cache id = ctx.cache id := by
  induction calls generalizing ctx with
  | nil => rfl
  | cons call rest ih =>
    rw [List.foldl_cons, ih _ (fun c hc => h c (List.mem_cons_of_mem _ hc))]
    exact ContextImpl.setCache_cache_of_ne ctx call.target id _
      (fun heq => h call (List.mem_cons_self _ _) heq.symm)

/-- All the calls of one `ContextImpl::collect` target the transient images or one
single further cache. -/
theorem ContextImpl.collectCalls_targets (F : Nat) :
    ∃ t : CacheId, ∀ call ∈ ContextImpl.collectCalls F,
      call.target = .transient_images ∨ call.target = t := by
  unfold ContextImpl.collectCalls
  simp only []
  split
  · exact ⟨.pipeline_cache, by simp⟩
  · exact ⟨.compute_pipeline_cache, by simp⟩
  · exact ⟨.renderpass_cache, by simp⟩
  · exact ⟨.pipeline_layouts, by simp⟩
  · exact ⟨.pool_cache, by simp⟩
  · exact ⟨.transient_images, by simp⟩

/-- Membership after the modelled `Cache::collect`. -/
theorem Cache.mem_collect (c : Cache) (F A : Nat) (e : CacheEntry) :
    e ∈ (c.collect F A).entries ↔ e ∈ c.entries ∧ ¬ (F - e.last_accessed_frame > A) := by
  simp [Cache.collect, List.mem_filter]

/-- An entry is destroyed by the modelled `Cache::collect` exactly when it is live and
more than `A` frames behind. -/
theorem Cache.destroys_collect (c : Cache) (F A : Nat) (e : CacheEntry) :
    Cache.destroys c (c.collect F A) e ↔ e ∈ c.entries ∧ F - e.last_accessed_frame > A := by
  unfold Cache.destroys
  rw [Cache.mem_collect]
  tauto

/-- C1: `ContextImpl::collect(F)` collects the transient images on every call with
maximum age 6 (first conjunct, for any `Cache::collect`); under the spec's rule for
`Cache::collect`, a live transient-image entry last accessed at frame `L` is destroyed
by `collect(F)` iff `F - L > 6`; in particular at `F = 20` an entry with `L = 10` is
evicted and one with `L = 15` is retained. -/
theorem collect_transient_images_max_age_six (ctx : ContextImpl) (F : Nat) (e : CacheEntry)
    (he : e ∈ ctx.transient_images.entries) :
    ({ target := .transient_images, current_frame := F, max_age := 6 } ∈
        ContextImpl.collectCalls F ∧
      ∀ cc : Cache → Nat → Nat → Cache,
        (ContextImpl.collect cc ctx F).transient_images = cc ctx.transient_images F 6) ∧
    (Cache.destroys ctx.transient_images
        (ContextImpl.collect Cache.collect ctx F).transient_images e ↔
      F - e.last_accessed_frame > 6) ∧
    (F = 20 → e.last_accessed_frame = 10 →
      e ∉ (ContextImpl.collect Cache.collect ctx F).transient_images.entries) ∧
    (F = 20 → e.last_accessed_frame = 15 →
      e ∈ (ContextImpl.collect Cache.collect ctx F).transient_images.entries) := by
  have hiff : Cache.destroys ctx.transient_images
        (ContextImpl.collect Cache.collect ctx F).transient_images e ↔
      F - e.last_accessed_frame > 6 := by
    rw [ContextImpl.collect_transient, Cache.destroys_collect]
    exact ⟨fun h => h.2, fun h => ⟨he, h⟩⟩
  refine ⟨⟨?_, fun cc => ContextImpl.collect_transient cc ctx F⟩, hiff, ?_, ?_⟩
  · simp [ContextImpl.collectCalls]
  · intro hF hL
    have hd := hiff.mpr (by omega)
    exact hd.2
  · intro hF hL
    rw [ContextImpl.collect_transient, Cache.mem_collect]
    exact ⟨he, by omega⟩

/-- Witness of C1 at frame 20 on `ctxFrame20`: the entry last accessed at frame 10 is
destroyed, the one last accessed at frame 15 is kept. -/
theorem collect_transient_images_max_age_six_witness :
    (⟨5, 5, 10⟩ : CacheEntry) ∉
        (ContextImpl.collect Cache.collect ctxFrame20 20).transient_images.entries ∧
    (⟨6, 6, 15⟩ : CacheEntry) ∈
        (ContextImpl.collect Cache.collect ctxFrame20 20).transient_images.entries :=
  ⟨(collect_transient_images_max_age_six ctxFrame20 20 ⟨5, 5, 10⟩ (by decide)).2.2.1 rfl rfl,
   (collect_transient_images_max_age_six ctxFrame20 20 ⟨6, 6, 15⟩ (by decide)).2.2.2 rfl rfl⟩

/-- C2: every entry that `ContextImpl::collect(F)` destroys, in whichever cache, was last
used before frame `F - N` with `N = num_inflight_frames = 3`; every maximum age passed
to `Cache::collect` is 6 or 16, hence at least `N`; so an entry used within the last
`N` frames is never evicted. -/
theorem collect_evicts_only_before_inflight_window (ctx : ContextImpl) (F : Nat)
    (id : CacheId) (e : CacheEntry)
    (hd : Cache.destroys (ctx.cache id) ((ContextImpl.collect Cache.collect ctx F).cache id) e) :
    e.last_accessed_frame < F - num_inflight_frames ∧
    ¬ (F - e.last_accessed_frame ≤ num_inflight_frames) ∧
    ∀ call ∈ ContextImpl.collectCalls F,
      (call.max_age = 6 ∨ call.max_age = 16) ∧ num_inflight_frames ≤ call.max_age := by
  have hage : F - e.last_accessed_frame > 6 := by
    rcases ContextImpl.collect_cache_cases Cache.collect ctx F id with h | h | h
    · rw [h] at hd
      exact absurd hd.1 hd.2
    · rw [h, Cache.destroys_collect] at hd
      exact hd.2
    · rw [h, Cache.destroys_collect] at hd
      omega
  refine ⟨by unfold num_inflight_frames; omega, by unfold num_inflight_frames; omega, ?_⟩
  intro call hc
  unfold ContextImpl.collectCalls at hc
  simp only [] at hc
  split at hc <;> simp at hc <;>
    rcases hc with rfl | rfl <;> simp [num_inflight_frames, cache_collection_frequency]

/-- Witness of C2: at frame 20 the transient image last accessed at frame 10 is destroyed,
and 10 lies before frame 20 - 3. -/
theorem collect_evicts_only_before_inflight_window_witness :
    (⟨5, 5, 10⟩ : CacheEntry).last_accessed_frame < 20 - num_inflight_frames :=
  (collect_evicts_only_before_inflight_window ctxFrame20 20 .transient_images ⟨5, 5, 10⟩
    (by decide)).1

/-- C5: for every frame and whatever `Cache::collect` does, `ContextImpl::collect` makes
no call on `sampler_cache` nor on `pipelinebase_cache`, and both caches are the same
after the call as before. -/
theorem collect_exempts_sampler_and_pipelinebase (cc : Cache → Nat → Nat → Cache)
    (ctx : ContextImpl) (absolute_frame : Nat) :
    (ContextImpl.collect cc ctx absolute_frame).sampler_cache = ctx.sampler_cache ∧
    (ContextImpl.collect cc ctx absolute_frame).pipelinebase_cache = ctx.pipelinebase_cache ∧
    ∀ call ∈ ContextImpl.collectCalls absolute_frame,
      call.target ≠ .sampler_cache ∧ call.target ≠ .pipelinebase_cache := by
  refine ⟨?_, ?_, ?_⟩
  · unfold ContextImpl.collect ContextImpl.collectCalls
    simp only []
    split <;> simp [ContextImpl.applyCall, ContextImpl.setCache, ContextImpl.cache]
  · unfold ContextImpl.collect ContextImpl.collectCalls
    simp only []
    split <;> simp [ContextImpl.applyCall, ContextImpl.setCache, ContextImpl.cache]
  · intro call hc
    unfold ContextImpl.collectCalls at hc
    simp only [] at hc
    split at hc <;> simp at hc <;> rcases hc with rfl | rfl <;> simp

/-- C6: one call of `ContextImpl::collect` makes at most one `Cache::collect` call besides
the one on `transient_images`; that call, when present, is on one of the five
periodically collected caches; and at most one cache other than `transient_images`
differs after the call. -/
theorem collect_at_most_one_periodic_cache (cc : Cache → Nat → Nat → Cache)
    (ctx : ContextImpl) (absolute_frame : Nat) :
    ((ContextImpl.collectCalls absolute_frame).filter
        (fun call => decide (call.target ≠ .transient_images))).length ≤ 1 ∧
    (∀ call ∈ ContextImpl.collectCalls absolute_frame, call.target ≠ .transient_images →
      call.target ∈ [CacheId.pipeline_cache, .compute_pipeline_cache, .renderpass_cache,
        .pipeline_layouts, .pool_cache]) ∧
    (∀ a b : CacheId, a ≠ .transient_images → b ≠ .transient_images →
      (ContextImpl.collect cc ctx absolute_frame).cache a ≠ ctx.cache a →
      (ContextImpl.collect cc ctx absolute_frame).cache b ≠ ctx.cache b → a = b) := by
  refine ⟨?_, ?_, ?_⟩
  · unfold ContextImpl.collectCalls
    simp only []
    split <;> simp
  · intro call hc
    unfold ContextImpl.collectCalls at hc
    simp only [] at hc
    split at hc <;> simp at hc <;> rcases hc with rfl | rfl <;> simp
  · intro a b ha hb hca hcb
    obtain ⟨t, ht⟩ := ContextImpl.collectCalls_targets absolute_frame
    have key : ∀ x : CacheId, x ≠ .transient_images →
        (ContextImpl.collect cc ctx absolute_frame).cache x ≠ ctx.cache x → x = t := by
      intro x hx hcx
      by_contra hxt
      apply hcx
      apply ContextImpl.foldl_applyCall_cache
      intro call hc heq
      rcases ht call hc with h | h
      · exact hx (heq ▸ h)
      · exact hxt (heq ▸ h)
    rw [key a ha hca, key b hb hcb]

/-- Witness of C6 on `ctxFrame20` at frame 16: the pipeline cache and the render-pass
cache are not both changed by the call. -/
theorem collect_at_most_one_periodic_cache_witness :
    ¬ ((ContextImpl.collect Cache.collect ctxFrame20 16).cache .pipeline_cache ≠
          ctxFrame20.cache .pipeline_cache ∧
       (ContextImpl.collect Cache.collect ctxFrame20 16).cache .renderpass_cache ≠
          ctxFrame20.cache .renderpass_cache) :=
  fun h => absurd
    ((collect_at_most_one_periodic_cache Cache.collect ctxFrame20 16).2.2
      .pipeline_cache .renderpass_cache (by decide) (by decide) h.1 h.2) (by decide)

/-! ## Theorems: binding flags -/

/-- For in-range arguments the position expression does not wrap and is a position of
the bitset. -/
theorem flagPosition_in_range (MB set binding k : Nat)
    (hMB : 4 * VUK_MAX_SETS * MB < 2 ^ 31)
    (hs : set < VUK_MAX_SETS) (hb : binding < MB) (hk : k < 4) :
    flagPosition MB set binding k = set * 4 * MB + binding * 4 + k ∧
    set * 4 * MB + binding * 4 + k < 4 * VUK_MAX_SETS * MB := by
  unfold VUK_MAX_SETS at *
  have h1 : set * 4 * MB ≤ 7 * 4 * MB :=
    Nat.mul_le_mul_right MB (Nat.mul_le_mul_right 4 (by omega))
  have h2 : set * 4 * MB + binding * 4 + k < 4 * 8 * MB := by omega
  refine ⟨?_, h2⟩
  unfold flagPosition wrapUnsigned
  apply Nat.mod_eq_of_lt
  omega

/-- Writing an in-range bit succeeds. -/
theorem bitset.set_of_lt {N : Nat} (b : bitset N) (pos : Nat) (val : Bool) (h : pos < N) :
    b.set pos val = .ok (Function.update b ⟨pos, h⟩ val) := by
  simp [bitset.set, h]

/-- Reading an in-range bit succeeds. -/
theorem bitset.test_of_lt {N : Nat} (b : bitset N) (pos : Nat) (h : pos < N) :
    b.test pos = .ok (b ⟨pos, h⟩) := by
  simp [bitset.test, h]

/-- The conversion of `f & 2^k` to `bool` is bit `k` of `f`. -/
theorem maskedBit_two_pow (f k : Nat) : maskedBit f (2 ^ k) = f.testBit k := by
  unfold maskedBit
  rw [Nat.and_two_pow]
  cases f.testBit k <;> simp

/-- For in-range arguments `set_binding_flags` returns normally; the result has the same
`variable_count_max` and its bits are those of `f` at the four positions of the
descriptor and the previous ones elsewhere. -/
theorem PipelineBaseCreateInfoBase.set_binding_flags_ok {MB : Nat}
    (hMB : 4 * VUK_MAX_SETS * MB < 2 ^ 31) (self : PipelineBaseCreateInfoBase MB)
    (set binding f : Nat) (hs : set < VUK_MAX_SETS) (hb : binding < MB) :
    ∃ s', self.set_binding_flags set binding f = .ok s' ∧
      s'.variable_count_max = self.variable_count_max ∧
      ∀ i : Fin (4 * VUK_MAX_SETS * MB), s'.binding_flags i =
        if i.val = set * 4 * MB + binding * 4 + 3 then f.testBit 3
        else if i.val = set * 4 * MB + binding * 4 + 2 then f.testBit 2
        else if i.val = set * 4 * MB + binding * 4 + 1 then f.testBit 1
        else if i.val = set * 4 * MB + binding * 4 + 0 then f.testBit 0
        else self.binding_flags i := by
  obtain ⟨e0, l0⟩ := flagPosition_in_range MB set binding 0 hMB hs hb (by omega)
  obtain ⟨e1, l1⟩ := flagPosition_in_range MB set binding 1 hMB hs hb (by omega)
  obtain ⟨e2, l2⟩ := flagPosition_in_range MB set binding 2 hMB hs hb (by omega)
  obtain ⟨e3, l3⟩ := flagPosition_in_range MB set binding 3 hMB hs hb (by omega)
  have m0 : maskedBit f 0b1 = f.testBit 0 := maskedBit_two_pow f 0
  have m1 : maskedBit f 0b10 = f.testBit 1 := maskedBit_two_pow f 1
  have m2 : maskedBit f 0b100 = f.testBit 2 := maskedBit_two_pow f 2
  have m3 : maskedBit f 0b1000 = f.testBit 3 := maskedBit_two_pow f 3
  unfold PipelineBaseCreateInfoBase.set_binding_flags
  rw [e0, e1, e2, e3, m0, m1, m2, m3, bitset.set_of_lt _ _ _ l0]
  simp only [bind, Except.bind, pure, Except.pure]
  rw [bitset.set_of_lt _ _ _ l1]
  simp only []
  rw [bitset.set_of_lt _ _ _ l2]
  simp only []
  rw [bitset.set_of_lt _ _ _ l3]
  refine ⟨_, rfl, rfl, ?_⟩
  intro i
  simp only [Function.update_apply, Fin.ext_iff]

/-- The clearing loop run over the first `n` bindings returns normally and clears exactly
the variable-count bits of those bindings. -/
theorem clearLoop_ok {MB : Nat} (hMB : 4 * VUK_MAX_SETS * MB < 2 ^ 31)
    (b : bitset (4 * VUK_MAX_SETS * MB)) (set : Nat) (hs : set < VUK_MAX_SETS)
    (n : Nat) (hn : n ≤ MB) :
    ∃ b', (List.range n).foldlM
        (fun acc i => bitset.set acc (flagPosition MB set i 3) false) b = .ok b' ∧
      ∀ i : Fin (4 * VUK_MAX_SETS * MB),
        ((∃ j, j < n ∧ i.val = set * 4 * MB + j * 4 + 3) → b' i = false) ∧
        ((¬ ∃ j, j < n ∧ i.val = set * 4 * MB + j * 4 + 3) → b' i = b i) := by
  induction n with
  | zero =>
    refine ⟨b, rfl, fun i => ⟨?_, fun _ => rfl⟩⟩
    rintro ⟨j, hj, _⟩
    omega
  | succ n ih =>
    obtain ⟨b1, hb1, hbits⟩ := ih (by omega)
    obtain ⟨e, l⟩ := flagPosition_in_range MB set n 3 hMB hs (by omega) (by omega)
    rw [List.range_succ, List.foldlM_append, hb1]
    simp only [bind, Except.bind, List.foldlM, pure, Except.pure]
    rw [e, bitset.set_of_lt _ _ _ l]
    refine ⟨_, rfl, fun i => ⟨?_, ?_⟩⟩
    · rintro ⟨j, hj, hij⟩
      rw [Function.update_apply]
      split
      · rfl
      · rename_i hne
        apply (hbits i).1
        refine ⟨j, ?_, hij⟩
        rcases Nat.lt_succ_iff_lt_or_eq.mp hj with h | h
        · exact h
        · exact absurd (Fin.ext (by rw [hij, h])) hne
    · intro hnot
      rw [Function.update_apply]
      split
      · rename_i heq
        exact absurd ⟨n, Nat.lt_succ_self n, by rw [heq]⟩ hnot
      · apply (hbits i).2
        rintro ⟨j, hj, hij⟩
        exact hnot ⟨j, Nat.lt_succ_of_lt hj, hij⟩

/-- For in-range arguments `set_variable_count_binding` returns normally; in the result
the variable-count bit of `binding` is set, the variable-count bits of the other
bindings of `set` are clear, every other bit is as before, and `variable_count_max`
is updated at `set` only. -/
theorem PipelineBaseCreateInfoBase.set_variable_count_binding_ok {MB : Nat}
    (hMB : 4 * VUK_MAX_SETS * MB < 2 ^ 31) (self : PipelineBaseCreateInfoBase MB)
    (set binding m : Nat) (hs : set < VUK_MAX_SETS) (hb : binding < MB) :
    ∃ s', self.set_variable_count_binding set binding m = .ok s' ∧
      s'.variable_count_max = Function.update self.variable_count_max ⟨set, hs⟩ m ∧
      ∀ i : Fin (4 * VUK_MAX_SETS * MB),
        (i.val = set * 4 * MB + binding * 4 + 3 → s'.binding_flags i = true) ∧
        (i.val ≠ set * 4 * MB + binding * 4 + 3 →
          (∃ j, j < MB ∧ i.val = set * 4 * MB + j * 4 + 3) → s'.binding_flags i = false) ∧
        ((¬ ∃ j, j < MB ∧ i.val = set * 4 * MB + j * 4 + 3) →
          s'.binding_flags i = self.binding_flags i) := by
  obtain ⟨b1, hb1, hbits⟩ := clearLoop_ok hMB self.binding_flags set hs MB (Nat.le_refl MB)
  obtain ⟨e, l⟩ := flagPosition_in_range MB set binding 3 hMB hs hb (by omega)
  unfold PipelineBaseCreateInfoBase.set_variable_count_binding clearVariableCountBits arrayAssign
  rw [hb1]
  simp only [bind, Except.bind, pure, Except.pure]
  rw [e, bitset.set_of_lt _ _ _ l]
  simp only [hs, dite_true]
  refine ⟨_, rfl, rfl, fun i => ⟨?_, ?_, ?_⟩⟩
  · intro hi
    simp only [Function.update_apply, Fin.ext_iff, hi, if_true]
  · intro hi hex
    simp only [Function.update_apply, Fin.ext_iff, hi, if_false]
    exact (hbits i).1 hex
  · intro hnot
    have hi : i.val ≠ set * 4 * MB + binding * 4 + 3 := fun h => hnot ⟨binding, hb, h⟩
    simp only [Function.update_apply, Fin.ext_iff, hi, if_false]
    exact (hbits i).2 hnot

/-- C7: for `set < VUK_MAX_SETS` and `binding < VUK_MAX_BINDINGS`, the call
`set_binding_flags(set, binding, f)` returns normally and afterwards the bit at position
`set * 4 * VUK_MAX_BINDINGS + binding * 4 + k` equals bit `k` of `f` for `k = 0..3`;
the higher bits of `f` are dropped, the result being the same as for `f % 16`. -/
theorem set_binding_flags_stores_low_four_bits {VUK_MAX_BINDINGS : Nat}
    (hMB : 4 * VUK_MAX_SETS * VUK_MAX_BINDINGS < 2 ^ 31)
    (self : PipelineBaseCreateInfoBase VUK_MAX_BINDINGS) (set binding f : Nat)
    (hs : set < VUK_MAX_SETS) (hb : binding < VUK_MAX_BINDINGS) :
    ∃ s', self.set_binding_flags set binding f = .ok s' ∧
      (∀ k, k < 4 →
        s'.binding_flags.test (set * 4 * VUK_MAX_BINDINGS + binding * 4 + k) =
          .ok (f.testBit k)) ∧
      self.set_binding_flags set binding (f % 16) = .ok s' := by
  obtain ⟨s1, h1, hv1, hbits1⟩ :=
    PipelineBaseCreateInfoBase.set_binding_flags_ok hMB self set binding f hs hb
  obtain ⟨s2, h2, hv2, hbits2⟩ :=
    PipelineBaseCreateInfoBase.set_binding_flags_ok hMB self set binding (f % 16) hs hb
  refine ⟨s1, h1, ?_, ?_⟩
  · intro k hk
    obtain ⟨_, l⟩ := flagPosition_in_range VUK_MAX_BINDINGS set binding k hMB hs hb hk
    rw [bitset.test_of_lt _ _ l, hbits1]
    have hk4 : k = 0 ∨ k = 1 ∨ k = 2 ∨ k = 3 := by omega
    rcases hk4 with rfl | rfl | rfl | rfl <;> simp
  · rw [h2]
    have hmod : ∀ k, k < 4 → (f % 16).testBit k = f.testBit k := by
      intro k hk
      have h16 : (16 : Nat) = 2 ^ 4 := by norm_num
      rw [h16, Nat.testBit_mod_two_pow]
      simp [hk]
    have hflags : s2.binding_flags = s1.binding_flags := by
      funext i
      rw [hbits1, hbits2, hmod 0 (by omega), hmod 1 (by omega), hmod 2 (by omega),
        hmod 3 (by omega)]
    cases s1
    cases s2
    simp only at hflags hv1 hv2
    rw [hflags, hv1, hv2]

/-- Witness of C7 with `VUK_MAX_BINDINGS = 2`: flags `0b11010` written to descriptor
`(1, 1)` of the default value. -/
theorem set_binding_flags_stores_low_four_bits_witness :
    ∃ s', (PipelineBaseCreateInfoBase.default 2).set_binding_flags 1 1 0b11010 = .ok s' ∧
      (∀ k, k < 4 → s'.binding_flags.test (1 * 4 * 2 + 1 * 4 + k) =
          .ok (Nat.testBit 0b11010 k)) ∧
      (PipelineBaseCreateInfoBase.default 2).set_binding_flags 1 1 (0b11010 % 16) = .ok s' :=
  set_binding_flags_stores_low_four_bits (by decide) (PipelineBaseCreateInfoBase.default 2)
    1 1 0b11010 (by decide) (by decide)

/-- C8: for `set < VUK_MAX_SETS` and `binding < VUK_MAX_BINDINGS`, whatever the previous
state, `set_variable_count_binding(set, binding, max_descriptors)` returns normally and
afterwards the variable-count bit (bit 3) of a binding of `set` is set exactly when
that binding is `binding`, and `variable_count_max[set] == max_descriptors`. -/
theorem set_variable_count_binding_exactly_one {VUK_MAX_BINDINGS : Nat}
    (hMB : 4 * VUK_MAX_SETS * VUK_MAX_BINDINGS < 2 ^ 31)
    (self : PipelineBaseCreateInfoBase VUK_MAX_BINDINGS) (set binding max_descriptors : Nat)
    (hs : set < VUK_MAX_SETS) (hb : binding < VUK_MAX_BINDINGS) :
    ∃ s', self.set_variable_count_binding set binding max_descriptors = .ok s' ∧
      (∀ j, j < VUK_MAX_BINDINGS →
        s'.binding_flags.test (set * 4 * VUK_MAX_BINDINGS + j * 4 + 3) =
          .ok (decide (j = binding))) ∧
      s'.variable_count_max ⟨set, hs⟩ = max_descriptors := by
  obtain ⟨s1, h1, hv1, hbits1⟩ :=
    PipelineBaseCreateInfoBase.set_variable_count_binding_ok hMB self set binding
      max_descriptors hs hb
  refine ⟨s1, h1, ?_, ?_⟩
  · intro j hj
    obtain ⟨_, l⟩ := flagPosition_in_range VUK_MAX_BINDINGS set j 3 hMB hs hj (by omega)
    rw [bitset.test_of_lt _ _ l]
    by_cases hjb : j = binding
    · subst hjb
      rw [(hbits1 ⟨_, l⟩).1 rfl]
      simp
    · have hne : set * 4 * VUK_MAX_BINDINGS + j * 4 + 3 ≠
          set * 4 * VUK_MAX_BINDINGS + binding * 4 + 3 := by omega
      rw [(hbits1 ⟨_, l⟩).2.1 hne ⟨j, hj, rfl⟩]
      simp [hjb]
  · rw [hv1]
    simp

/-- Witness of C8 with `VUK_MAX_BINDINGS = 2`, on a value whose set 1 already has the
variable-count bit on binding 0: afterwards binding 1 alone carries it. -/
theorem set_variable_count_binding_exactly_one_witness :
    ∃ s', baseWithVariableCount.set_variable_count_binding 1 1 100 = .ok s' ∧
      (∀ j, j < 2 → s'.binding_flags.test (1 * 4 * 2 + j * 4 + 3) = .ok (decide (j = 1))) ∧
      s'.variable_count_max ⟨1, by decide⟩ = 100 :=
  set_variable_count_binding_exactly_one (by decide) baseWithVariableCount 1 1 100
    (by decide) (by decide)

/-! ## Theorems: create-info keys -/

/-- Sequences that compare equal element by element have equal element-wise hashes. -/
theorem hashFixedVector_congr {α : Type} (env : HashEnv) (eq : α → α → Bool) (hash : α → Nat)
    (hc : ∀ x y, eq x y = true → hash x = hash y) (xs ys : List α)
    (h : fixedVectorEq eq xs ys = true) :
    hashFixedVector env hash xs = hashFixedVector env hash ys := by
  unfold hashFixedVector
  generalize (0 : Nat) = seed
  induction xs generalizing ys seed with
  | nil =>
    cases ys with
    | nil => rfl
    | cons y ys => simp [fixedVectorEq] at h
  | cons x xs ih =>
    cases ys with
    | nil => simp [fixedVectorEq] at h
    | cons y ys =>
      simp only [fixedVectorEq, Bool.and_eq_true] at h
      simp only [List.foldl_cons]
      rw [hc x y h.1]
      exact ih ys h.2 _

/-- C3: each cache key type is hashed consistently with its equality: for
`PipelineBaseCreateInfo`, `ComputePipelineCreateInfo`, `PipelineInstanceCreateInfo` and
`PipelineLayoutCreateInfo`, `a == b` implies `std::hash(a) == std::hash(b)`. This holds
for every `hash_combine` and scalar hashes, and for every comparison and hash of the
descriptor-set-layout create-info that are themselves consistent. -/
theorem create_info_hash_consistent_with_eq (env : HashEnv) {VUK_MAX_BINDINGS : Nat}
    {D : Type} (ops : DescriptorSetLayoutOps D)
    (hops : ∀ x y, ops.operatorEq x y = true → ops.hash x = ops.hash y) :
    (∀ a b : PipelineBaseCreateInfo VUK_MAX_BINDINGS, a.operatorEq b = true →
      hashPipelineBaseCreateInfo env a = hashPipelineBaseCreateInfo env b) ∧
    (∀ a b : ComputePipelineCreateInfo VUK_MAX_BINDINGS, a.operatorEq b = true →
      hashComputePipelineCreateInfo env a = hashComputePipelineCreateInfo env b) ∧
    (∀ a b : PipelineInstanceCreateInfo, a.operatorEq b = true →
      hashPipelineInstanceCreateInfo env a = hashPipelineInstanceCreateInfo env b) ∧
    (∀ a b : PipelineLayoutCreateInfo D, a.operatorEq ops b = true →
      hashPipelineLayoutCreateInfo env ops a = hashPipelineLayoutCreateInfo env ops b) := by
  refine ⟨?_, ?_, ?_, ?_⟩
  · intro a b h
    simp only [PipelineBaseCreateInfo.operatorEq, Bool.and_eq_true, decide_eq_true_eq] at h
    obtain ⟨⟨⟨⟨⟨⟨h1, h2⟩, h3⟩, h4⟩, h5⟩, _⟩, _⟩ := h
    unfold hashPipelineBaseCreateInfo
    rw [h1, h2, h3, h4, h5]
  · intro a b h
    simp only [ComputePipelineCreateInfo.operatorEq, Bool.and_eq_true, decide_eq_true_eq] at h
    unfold hashComputePipelineCreateInfo
    rw [h.1.1]
  · intro a b h
    simp only [PipelineInstanceCreateInfo.operatorEq, Bool.and_eq_true,
      decide_eq_true_eq] at h
    obtain ⟨⟨⟨⟨⟨⟨⟨⟨⟨h1, _⟩, _⟩, _⟩, _⟩, _⟩, _⟩, _⟩, h9⟩, h10⟩ := h
    unfold hashPipelineInstanceCreateInfo
    rw [h1, h9, h10]
  · intro a b h
    simp only [PipelineLayoutCreateInfo.operatorEq, Bool.and_eq_true, decide_eq_true_eq] at h
    obtain ⟨⟨_, h2⟩, h3⟩ := h
    unfold hashPipelineLayoutCreateInfo
    rw [h2, hashFixedVector_congr env ops.operatorEq ops.hash hops _ _ h3]

/-- Witness of C3: keys that compare equal without being identical (different shader
paths, different uncompared layout component) have equal hashes under `sampleHashEnv`. -/
theorem create_info_hash_consistent_with_eq_witness :
    hashPipelineBaseCreateInfo sampleHashEnv (samplePipelineBase "a.vert") =
      hashPipelineBaseCreateInfo sampleHashEnv (samplePipelineBase "b.vert") ∧
    hashComputePipelineCreateInfo sampleHashEnv (sampleComputePipeline "a.comp") =
      hashComputePipelineCreateInfo sampleHashEnv (sampleComputePipeline "b.comp") ∧
    hashPipelineLayoutCreateInfo sampleHashEnv sampleDescriptorSetLayoutOps
        (samplePipelineLayout 1) =
      hashPipelineLayoutCreateInfo sampleHashEnv sampleDescriptorSetLayoutOps
        (samplePipelineLayout 2) :=
  have hops : ∀ x y : Nat × Nat, sampleDescriptorSetLayoutOps.operatorEq x y = true →
      sampleDescriptorSetLayoutOps.hash x = sampleDescriptorSetLayoutOps.hash y :=
    fun x y h => of_decide_eq_true h
  ⟨(create_info_hash_consistent_with_eq sampleHashEnv sampleDescriptorSetLayoutOps hops).1
      (samplePipelineBase "a.vert") (samplePipelineBase "b.vert") (by decide),
   (@create_info_hash_consistent_with_eq sampleHashEnv 1 (Nat × Nat)
      sampleDescriptorSetLayoutOps hops).2.1
      (sampleComputePipeline "a.comp") (sampleComputePipeline "b.comp") (by decide),
   (@create_info_hash_consistent_with_eq sampleHashEnv 1 (Nat × Nat)
      sampleDescriptorSetLayoutOps hops).2.2.2
      (samplePipelineLayout 1) (samplePipelineLayout 2) (by decide)⟩

/-- C4 (the code at the failing input): two graphics-pipeline keys that differ in the
primitive topology of `input_assembly_state` (triangle list 3, line list 1) are not the
same value, yet `PipelineInstanceCreateInfo::operator==` returns true on them and their
hashes agree, so they are one key of the pipeline cache. -/
theorem pipeline_instance_eq_ignores_input_assembly :
    samplePipelineInstance 3 ≠ samplePipelineInstance 1 ∧
    (samplePipelineInstance 3).input_assembly_state ≠
      (samplePipelineInstance 1).input_assembly_state ∧
    (samplePipelineInstance 3).operatorEq (samplePipelineInstance 1) = true ∧
    hashPipelineInstanceCreateInfo sampleHashEnv (samplePipelineInstance 3) =
      hashPipelineInstanceCreateInfo sampleHashEnv (samplePipelineInstance 1) := by
  refine ⟨?_, by decide, by decide, rfl⟩
  intro h
  have h2 := congrArg PipelineInstanceCreateInfo.input_assembly_state h
  revert h2
  decide

/-! ## Theorems: pass ordering -/

/-- A successful `mapM` in `Except` relates every input to its output, position by
position. -/
theorem mapM_ok_forall₂ {α β ε : Type} (f : α → Except ε β) (l : List α) (out : List β)
    (h : l.mapM f = .ok out) : List.Forall₂ (fun x y => f x = .ok y) l out := by
  induction l generalizing out with
  | nil =>
    simp only [List.mapM_nil, pure, Except.pure, Except.ok.injEq] at h
    subst h
    exact List.Forall₂.nil
  | cons x xs ih =>
    rw [List.mapM_cons] at h
    cases hx : f x with
    | error e =>
      rw [hx] at h
      simp only [bind, Except.bind] at h
      cases h
    | ok y =>
      cases hxs : xs.mapM f with
      | error e =>
        rw [hx, hxs] at h
        simp only [bind, Except.bind] at h
        cases h
      | ok ys =>
        rw [hx, hxs] at h
        simp only [bind, Except.bind, pure, Except.pure, Except.ok.injEq] at h
        subst h
        exact List.Forall₂.cons hx (ih ys hxs)

/-- Every output of a successful `mapM` in `Except` comes from an input. -/
theorem mapM_ok_mem {α β ε : Type} (f : α → Except ε β) (l : List α) (out : List β)
    (h : l.mapM f = .ok out) : ∀ y ∈ out, ∃ x ∈ l, f x = .ok y := by
  have hall := mapM_ok_forall₂ f l out h
  clear h
  induction hall with
  | nil =>
    intro y hy
    cases hy
  | cons hxy _ ih =>
    intro y hy
    rcases List.mem_cons.mp hy with h1 | h1
    · exact ⟨_, List.mem_cons_self _ _, h1 ▸ hxy⟩
    · obtain ⟨d, hd1, hd2⟩ := ih y h1
      exact ⟨d, List.mem_cons_of_mem _ hd1, hd2⟩

/-- A `mapM` in `Except` succeeds when the function succeeds on every element. -/
theorem mapM_ok_of_forall {α β ε : Type} (f : α → Except ε β) (l : List α)
    (h : ∀ x ∈ l, ∃ y, f x = .ok y) : ∃ out, l.mapM f = .ok out := by
  induction l with
  | nil => exact ⟨[], rfl⟩
  | cons x xs ih =>
    obtain ⟨y, hy⟩ := h x (List.mem_cons_self _ _)
    obtain ⟨ys, hys⟩ := ih (fun z hz => h z (List.mem_cons_of_mem _ hz))
    refine ⟨y :: ys, ?_⟩
    rw [List.mapM_cons, hy, hys]
    rfl

/-- The first index below `n` satisfying `p` is what `find?` returns on `range n`. -/
theorem find?_range_first (p : Nat → Bool) (n k : Nat) (hk : k < n) (hp : p k = true)
    (hlt : ∀ j, j < k → p j = false) : (List.range n).find? p = some k := by
  induction n with
  | zero => omega
  | succ n ih =>
    rw [List.range_succ, List.find?_append]
    rcases Nat.lt_succ_iff_lt_or_eq.mp hk with h | h
    · rw [ih h]
      rfl
    · subst h
      have hnone : (List.range k).find? p = none := by
        rw [List.find?_eq_none]
        intro x hx
        rw [hlt x (List.mem_range.mp hx)]
        simp
      rw [hnone]
      simp [List.find?, hp]

/-- The latest prior write seen from pass `j` is a pass declared before `j` that writes
the resource. -/
theorem latestPriorWrite_spec (passes : List Pass) (j : Nat) (r : String) (i : Nat)
    (h : latestPriorWrite passes j r = some i) :
    i < j ∧ (passes.getD i ⟨[]⟩).writes r = true := by
  have hmem := List.mem_of_getLast?_eq_some h
  rw [List.mem_filter, List.mem_range] at hmem
  exact hmem

/-- Every dependency of pass `j` is a pass declared before `j`. -/
theorem passDependencies_lt (g : RenderGraph) (j : Nat) (ds : List Nat)
    (h : passDependencies g j = .ok ds) : ∀ i ∈ ds, i < j := by
  unfold passDependencies at h
  cases hb : ((g.passes.getD j ⟨[]⟩).resources).mapM (resolveDeclaration g j) with
  | error e =>
    rw [hb] at h
    simp only [bind, Except.bind] at h
    cases h
  | ok bound =>
    rw [hb] at h
    simp only [bind, Except.bind, pure, Except.pure, Except.ok.injEq] at h
    subst h
    intro i hi
    rw [List.mem_filterMap] at hi
    obtain ⟨o, ho, hoi⟩ := hi
    simp only [id] at hoi
    subst hoi
    obtain ⟨d, _, hd⟩ := mapM_ok_mem _ _ _ hb _ ho
    unfold resolveDeclaration at hd
    split at hd
    · rename_i k hk
      simp only [Except.ok.injEq, Option.some.injEq] at hd
      subst hd
      exact (latestPriorWrite_spec _ _ _ _ hk).1
    · split at hd
      · cases hd
      · cases hd

/-- When every dependency points to an earlier declared pass, scheduling from the first
`k` declared passes yields the declaration order. -/
theorem schedulePasses_forward (deps : List (List Nat))
    (hfwd : ∀ j, j < deps.length → ∀ i ∈ deps.getD j [], i < j) (fuel k : Nat)
    (hk : k + fuel = deps.length) :
    schedulePasses deps fuel (List.range k) = .ok (List.range deps.length) := by
  induction fuel generalizing k with
  | zero =>
    have : k = deps.length := by omega
    subst this
    rfl
  | succ fuel ih =>
    have hlt : k < deps.length := by omega
    have hfind : (List.range deps.length).find? (readyPass deps (List.range k)) = some k := by
      apply find?_range_first _ _ _ hlt
      · unfold readyPass
        simp only [Bool.and_eq_true, Bool.not_eq_true', List.all_eq_true]
        refine ⟨?_, ?_⟩
        · simp
        · intro i hi
          have := hfwd k hlt i hi
          simp [this]
      · intro j hj
        unfold readyPass
        simp [hj]
    unfold schedulePasses
    rw [hfind]
    simp only []
    rw [← List.range_succ]
    exact ih (k + 1) (by omega)

/-- A graph that compiles is executed in declaration order: every dependency edge of the
name resolution points from an earlier declared pass to a later one. -/
theorem RenderGraph.compile_eq_range (g : RenderGraph) (order : List Nat)
    (h : g.compile = .ok order) : order = List.range g.passes.length := by
  unfold RenderGraph.compile at h
  cases hd : (List.range g.passes.length).mapM (passDependencies g) with
  | error e =>
    rw [hd] at h
    simp only [bind, Except.bind] at h
    cases h
  | ok deps =>
    rw [hd] at h
    simp only [bind, Except.bind] at h
    have hall := mapM_ok_forall₂ _ _ _ hd
    have hlen : deps.length = g.passes.length := by
      rw [← hall.length_eq, List.length_range]
    have hfwd : ∀ j, j < deps.length → ∀ i ∈ deps.getD j [], i < j := by
      intro j hj i hi
      have hj2 : j < (List.range g.passes.length).length := by
        rw [List.length_range]
        omega
      have hget := hall.get hj2 hj
      rw [List.getD_eq_getElem _ _ hj] at hi
      simp only [List.get_eq_getElem, List.getElem_range] at hget
      exact passDependencies_lt g j _ hget i hi
    have hs := schedulePasses_forward deps hfwd deps.length 0 (by omega)
    rw [List.range_zero, hlen] at hs
    rw [hs] at h
    cases h
    rfl

/-- A graph compiles exactly when each of its declarations resolves, that is when the
dependencies of each pass can be computed. -/
theorem RenderGraph.compile_ok_iff (g : RenderGraph) :
    (∃ order, g.compile = .ok order) ↔
      ∀ j, j < g.passes.length → ∃ ds, passDependencies g j = .ok ds := by
  constructor
  · rintro ⟨order, h⟩ j hj
    unfold RenderGraph.compile at h
    cases hd : (List.range g.passes.length).mapM (passDependencies g) with
    | error e =>
      rw [hd] at h
      simp only [bind, Except.bind] at h
      cases h
    | ok deps =>
      have hall := mapM_ok_forall₂ _ _ _ hd
      have hj2 : j < (List.range g.passes.length).length := by
        rw [List.length_range]
        exact hj
      have hj3 : j < deps.length := by
        rw [← hall.length_eq]
        exact hj2
      have hget := hall.get hj2 hj3
      simp only [List.get_eq_getElem, List.getElem_range] at hget
      exact ⟨_, hget⟩
  · intro hres
    obtain ⟨deps, hd⟩ := mapM_ok_of_forall (passDependencies g) (List.range g.passes.length)
      (fun j hj => hres j (List.mem_range.mp hj))
    have hall := mapM_ok_forall₂ _ _ _ hd
    have hlen : deps.length = g.passes.length := by
      rw [← hall.length_eq, List.length_range]
    have hfwd : ∀ j, j < deps.length → ∀ i ∈ deps.getD j [], i < j := by
      intro j hj i hi
      have hj2 : j < (List.range g.passes.length).length := by
        rw [List.length_range]
        omega
      have hget := hall.get hj2 hj
      rw [List.getD_eq_getElem _ _ hj] at hi
      simp only [List.get_eq_getElem, List.getElem_range] at hget
      exact passDependencies_lt g j _ hget i hi
    have hs := schedulePasses_forward deps hfwd deps.length 0 (by omega)
    rw [List.range_zero, hlen] at hs
    refine ⟨List.range g.passes.length, ?_⟩
    unfold RenderGraph.compile
    rw [hd]
    simp only [bind, Except.bind]
    exact hs

/-- Every input of a successful `mapM` in `Except` has its output in the result. -/
theorem mapM_ok_mem_out {α β ε : Type} (f : α → Except ε β) (l : List α) (out : List β)
    (h : l.mapM f = .ok out) : ∀ x ∈ l, ∃ y ∈ out, f x = .ok y := by
  have hall := mapM_ok_forall₂ f l out h
  clear h
  induction hall with
  | nil =>
    intro x hx
    cases hx
  | cons hxy _ ih =>
    intro x hx
    rcases List.mem_cons.mp hx with h1 | h1
    · exact ⟨_, List.mem_cons_self _ _, h1 ▸ hxy⟩
    · obtain ⟨y, hy1, hy2⟩ := ih x h1
      exact ⟨y, List.mem_cons_of_mem _ hy1, hy2⟩

/-- Seen from pass `j`, a resource written by an earlier declared pass `p` has a latest
prior write, declared at `p` or later. -/
theorem latestPriorWrite_ge (passes : List Pass) (j : Nat) (r : String) (p : Nat)
    (hp : p < j) (hw : (passes.getD p ⟨[]⟩).writes r = true) :
    ∃ i, latestPriorWrite passes j r = some i ∧ p ≤ i ∧ i < j := by
  unfold latestPriorWrite
  have hmem : p ∈ (List.range j).filter (fun i => (passes.getD i ⟨[]⟩).writes r) :=
    List.mem_filter.mpr ⟨List.mem_range.mpr hp, hw⟩
  have hpw : List.Pairwise (· < ·)
      ((List.range j).filter (fun i => (passes.getD i ⟨[]⟩).writes r)) :=
    (List.pairwise_lt_range j).filter _
  cases hlast : ((List.range j).filter (fun i => (passes.getD i ⟨[]⟩).writes r)).getLast? with
  | none =>
    rw [List.getLast?_eq_none_iff] at hlast
    rw [hlast] at hmem
    cases hmem
  | some i =>
    refine ⟨i, rfl, ?_, ?_⟩
    · obtain ⟨ys, hys⟩ := List.getLast?_eq_some_iff.mp hlast
      rw [hys] at hmem hpw
      rcases List.mem_append.mp hmem with h | h
      · exact Nat.le_of_lt ((List.pairwise_append.mp hpw).2.2 p h i (List.mem_singleton_self i))
      · exact Nat.le_of_eq (List.mem_singleton.mp h)
    · have := List.mem_of_getLast?_eq_some hlast
      exact List.mem_range.mp (List.mem_filter.mp this).1

/-- A declaration of pass `j` on a resource written by an earlier declared pass `p` gives
pass `j` a dependency on a pass declared at `p` or later. -/
theorem passDependencies_of_prior_write (g : RenderGraph) (j : Nat) (ds : List Nat)
    (h : passDependencies g j = .ok ds) (d : Resource)
    (hd : d ∈ (g.passes.getD j ⟨[]⟩).resources) (p : Nat) (hp : p < j)
    (hw : (g.passes.getD p ⟨[]⟩).writes (resourceOf d.name) = true) :
    ∃ i ∈ ds, p ≤ i ∧ i < j := by
  obtain ⟨i, hi, hpi, hij⟩ := latestPriorWrite_ge g.passes j (resourceOf d.name) p hp hw
  refine ⟨i, ?_, hpi, hij⟩
  unfold passDependencies at h
  cases hb : ((g.passes.getD j ⟨[]⟩).resources).mapM (resolveDeclaration g j) with
  | error e =>
    rw [hb] at h
    simp only [bind, Except.bind] at h
    cases h
  | ok bound =>
    rw [hb] at h
    simp only [bind, Except.bind, pure, Except.pure, Except.ok.injEq] at h
    subst h
    obtain ⟨y, hy, hres⟩ := mapM_ok_mem_out _ _ _ hb d hd
    unfold resolveDeclaration at hres
    rw [hi] at hres
    simp only [Except.ok.injEq] at hres
    rw [List.mem_filterMap]
    exact ⟨y, hy, hres ▸ rfl⟩

/-- The graph `as_build` of example 12 compiles, to its declaration order. -/
theorem as_build_compile : as_build.compile = .ok [0, 1] := rfl

/-- The graph `rg("12")` of example 12 compiles, to its declaration order. -/
theorem rg12_compile : rg12.compile = .ok [0, 1, 2] := rfl

/-- The name `blas_buf+` denotes the resource `blas_buf`. -/
theorem resourceOf_blas_buf : resourceOf "blas_buf+" = "blas_buf" := by decide

/-- Without the binding of `blas_buf`, the graph `as_build` does not compile: the write of
its first pass has no prior write and no external binding. -/
theorem as_build_without_binding :
    ({ as_build with attachments := ["verts", "inds", "tlas_buf"] } : RenderGraph).compile =
      .error (.unresolved "blas_buf") := rfl

/-- In the declaration order of `n` passes, an earlier pass executes before a later one. -/
theorem executesBefore_range (n a b : Nat) (hab : a < b) (hb : b < n) :
    executesBefore (List.range n) a b :=
  ⟨a, b, hab, List.getElem?_range (by omega), List.getElem?_range hb⟩

/-- A pass index past the end declares nothing. -/
theorem Pass.lt_length_of_reads (passes : List Pass) (j : Nat) (r : String)
    (h : (passes.getD j ⟨[]⟩).reads r = true) : j < passes.length := by
  by_contra hge
  rw [List.getD_eq_default _ _ (by omega)] at h
  simp [Pass.reads] at h

/-- C10: in a graph that compiles, when a resource is written by pass `p1`, written by a
later declared pass `p2` and read by a still later declared pass `p3`, the compiled
order places `p1` before `p2` before `p3`; the order is forced by dependency edges: `p2`
depends on a write declared at `p1` or later and `p3` on a write declared at `p2` or
later. In the graph `as_build` of example 12, which compiles, the pass declaring the
write of `blas_buf` executes before the pass declaring the read of `blas_buf+`. -/
theorem compiled_order_places_writes_before_read (g : RenderGraph) (order : List Nat)
    (hc : g.compile = .ok order) (r : String) (p1 p2 p3 : Nat)
    (h12 : p1 < p2) (h23 : p2 < p3)
    (hw1 : (g.passes.getD p1 ⟨[]⟩).writes r = true)
    (hw2 : (g.passes.getD p2 ⟨[]⟩).writes r = true)
    (hr : (g.passes.getD p3 ⟨[]⟩).reads r = true) :
    (executesBefore order p1 p2 ∧ executesBefore order p2 p3) ∧
    (∃ ds2 ds3, passDependencies g p2 = .ok ds2 ∧ passDependencies g p3 = .ok ds3 ∧
      (∃ i ∈ ds2, p1 ≤ i ∧ i < p2) ∧ (∃ i ∈ ds3, p2 ≤ i ∧ i < p3)) ∧
    ∃ built, as_build.compile = .ok built ∧
      ∀ pw pr : Nat,
        (⟨"blas_buf", .eAccelerationStructureBuildWrite⟩ : Resource) ∈
          (as_build.passes.getD pw ⟨[]⟩).resources →
        (⟨"blas_buf+", .eAccelerationStructureBuildRead⟩ : Resource) ∈
          (as_build.passes.getD pr ⟨[]⟩).resources →
        executesBefore built pw pr := by
  have h3 := Pass.lt_length_of_reads g.passes p3 r hr
  have horder := RenderGraph.compile_eq_range g order hc
  subst horder
  obtain ⟨ds2, hds2⟩ := (RenderGraph.compile_ok_iff g).mp ⟨_, hc⟩ p2 (by omega)
  obtain ⟨ds3, hds3⟩ := (RenderGraph.compile_ok_iff g).mp ⟨_, hc⟩ p3 h3
  obtain ⟨d2, hd2, hd2w⟩ := List.any_eq_true.mp hw2
  obtain ⟨d3, hd3, hd3r⟩ := List.any_eq_true.mp hr
  have hr2 : resourceOf d2.name = r := by
    simp only [Bool.and_eq_true, beq_iff_eq] at hd2w
    exact hd2w.2
  have hr3 : resourceOf d3.name = r := by
    simp only [Bool.and_eq_true, beq_iff_eq] at hd3r
    exact hd3r.2
  refine ⟨⟨executesBefore_range _ _ _ h12 (by omega), executesBefore_range _ _ _ h23 h3⟩,
    ⟨ds2, ds3, hds2, hds3,
      passDependencies_of_prior_write g p2 ds2 hds2 d2 hd2 p1 h12 (hr2 ▸ hw1),
      passDependencies_of_prior_write g p3 ds3 hds3 d3 hd3 p2 h23 (hr3 ▸ hw2)⟩,
    [0, 1], rfl, ?_⟩
  intro pw pr hpw hpr
  have hpw0 : pw = 0 := by
    match pw, hpw with
    | 0, _ => rfl
    | 1, h => exact absurd h (by decide)
    | n + 2, h => simp [as_build] at h
  have hpr1 : pr = 1 := by
    match pr, hpr with
    | 0, h => exact absurd h (by decide)
    | 1, _ => rfl
    | n + 2, h => simp [as_build] at h
  subst hpw0
  subst hpr1
  exact ⟨0, 1, by decide, rfl, rfl⟩

/-- Witness of C10 on `twoWritesThenRead`, whose passes 0 and 1 write `X` and whose pass 2
reads it: the graph compiles to the order 0, 1, 2. -/
theorem compiled_order_places_writes_before_read_witness :
    executesBefore [0, 1, 2] 0 1 ∧ executesBefore [0, 1, 2] 1 2 :=
  (compiled_order_places_writes_before_read twoWritesThenRead [0, 1, 2] rfl "X" 0 1 2
    (by decide) (by decide) (by decide) (by decide) (by decide)).1


/-! ## Theorems: the collection schedule -/

/-- The calls of `ContextImpl::collect` written out by the remainder of the frame. -/
theorem ContextImpl.collectCalls_eq (F : Nat) :
    ContextImpl.collectCalls F =
      ⟨.transient_images, F, 6⟩ ::
        (if F % 16 = 0 then [⟨.pipeline_cache, F, 16⟩]
         else if F % 16 = 1 then [⟨.compute_pipeline_cache, F, 16⟩]
         else if F % 16 = 2 then [⟨.renderpass_cache, F, 16⟩]
         else if F % 16 = 4 then [⟨.pipeline_layouts, F, 16⟩]
         else if F % 16 = 6 then [⟨.pool_cache, F, 16⟩]
         else []) := by
  unfold ContextImpl.collectCalls
  simp only [cache_collection_frequency]
  split <;> simp_all

/-- A periodically collected cache is collected exactly at the frames whose remainder is
its `case` label. -/
theorem ContextImpl.collects_periodic (F : Nat) (id : CacheId) (r : Nat)
    (h : (id, r) ∈ periodicSchedule) :
    ContextImpl.collects F id = decide (F % 16 = r) := by
  unfold ContextImpl.collects
  rw [ContextImpl.collectCalls_eq]
  simp only [periodicSchedule, List.mem_cons, Prod.mk.injEq, List.mem_singleton,
    List.not_mem_nil, or_false] at h
  rcases h with ⟨rfl, rfl⟩ | ⟨rfl, rfl⟩ | ⟨rfl, rfl⟩ | ⟨rfl, rfl⟩ | ⟨rfl, rfl⟩ <;>
    (split_ifs <;> simp <;> omega)

/-- A periodically collected cache gets one `collect` call at the frames whose remainder is
its `case` label and none at the other frames. -/
theorem ContextImpl.collectCount_periodic (F : Nat) (id : CacheId) (r : Nat)
    (h : (id, r) ∈ periodicSchedule) :
    ContextImpl.collectCount F id = if F % 16 = r then 1 else 0 := by
  unfold ContextImpl.collectCount
  rw [ContextImpl.collectCalls_eq]
  simp only [periodicSchedule, List.mem_cons, Prod.mk.injEq, List.mem_singleton,
    List.not_mem_nil, or_false] at h
  rcases h with ⟨rfl, rfl⟩ | ⟨rfl, rfl⟩ | ⟨rfl, rfl⟩ | ⟨rfl, rfl⟩ | ⟨rfl, rfl⟩ <;>
    (split_ifs <;> first | rfl | omega)

/-- A window of 16 consecutive frames holds exactly one frame with a given remainder. -/
theorem window_count_remainder (start r : Nat) (hr : r < 16) :
    ((List.range 16).map (fun i => if (start + i) % 16 = r then 1 else 0)).sum = 1 := by
  have hmod : ∀ i, (start + i) % 16 = (start % 16 + i) % 16 := by
    intro i
    omega
  simp only [hmod]
  have hs : start % 16 < 16 := Nat.mod_lt _ (by norm_num)
  generalize start % 16 = s at hs
  interval_cases s <;> interval_cases r <;> decide

/-- C14: the periodic schedule of `ContextImpl::collect` is a fixed function of
`absolute_frame % 16`: `pipeline_cache` is collected iff the remainder is 0,
`compute_pipeline_cache` iff 1, `renderpass_cache` iff 2, `pipeline_layouts` iff 4,
`pool_cache` iff 6, each with maximum age 16; for the remainders 3, 5 and 7..15 the only
call is the one on `transient_images`; hence over any 16 consecutive frames each of the
five caches gets exactly one `collect` call. -/
theorem collect_schedule_mod_sixteen (absolute_frame : Nat) :
    ((ContextImpl.collects absolute_frame .pipeline_cache = true ↔ absolute_frame % 16 = 0) ∧
     (ContextImpl.collects absolute_frame .compute_pipeline_cache = true ↔
        absolute_frame % 16 = 1) ∧
     (ContextImpl.collects absolute_frame .renderpass_cache = true ↔
        absolute_frame % 16 = 2) ∧
     (ContextImpl.collects absolute_frame .pipeline_layouts = true ↔
        absolute_frame % 16 = 4) ∧
     (ContextImpl.collects absolute_frame .pool_cache = true ↔ absolute_frame % 16 = 6)) ∧
    (∀ call ∈ ContextImpl.collectCalls absolute_frame, call.target ≠ .transient_images →
      call.max_age = 16 ∧ call.current_frame = absolute_frame) ∧
    ((absolute_frame % 16 = 3 ∨ absolute_frame % 16 = 5 ∨ 7 ≤ absolute_frame % 16) →
      ContextImpl.collectCalls absolute_frame = [⟨.transient_images, absolute_frame, 6⟩]) ∧
    ((ContextImpl.collectCalls absolute_frame).map CollectCall.target =
      (ContextImpl.collectCalls (absolute_frame % 16)).map CollectCall.target) ∧
    (∀ id r, (id, r) ∈ periodicSchedule →
      ((List.range 16).map
        (fun i => ContextImpl.collectCount (absolute_frame + i) id)).sum = 1) := by
  refine ⟨⟨?_, ?_, ?_, ?_, ?_⟩, ?_, ?_, ?_, ?_⟩
  · rw [ContextImpl.collects_periodic _ _ 0 (by simp [periodicSchedule]), decide_eq_true_eq]
  · rw [ContextImpl.collects_periodic _ _ 1 (by simp [periodicSchedule]), decide_eq_true_eq]
  · rw [ContextImpl.collects_periodic _ _ 2 (by simp [periodicSchedule]), decide_eq_true_eq]
  · rw [ContextImpl.collects_periodic _ _ 4 (by simp [periodicSchedule]), decide_eq_true_eq]
  · rw [ContextImpl.collects_periodic _ _ 6 (by simp [periodicSchedule]), decide_eq_true_eq]
  · intro call hc hne
    rw [ContextImpl.collectCalls_eq] at hc
    split_ifs at hc <;> simp at hc <;> rcases hc with rfl | rfl <;> simp at hne ⊢
  · intro h
    rw [ContextImpl.collectCalls_eq]
    split_ifs <;> first | rfl | omega
  · rw [ContextImpl.collectCalls_eq, ContextImpl.collectCalls_eq]
    simp only [Nat.mod_mod]
    split_ifs <;> rfl
  · intro id r h
    have hr : r < 16 := by
      simp only [periodicSchedule, List.mem_cons, Prod.mk.injEq, List.mem_singleton,
        List.not_mem_nil, or_false] at h
      omega
    simp only [ContextImpl.collectCount_periodic _ id r h]
    exact window_count_remainder absolute_frame r hr

/-- Witness of C14 on the window of frames 20..35: the pool cache, collected at remainder
6, gets exactly one `collect` call, at frame 22. -/
theorem collect_schedule_mod_sixteen_witness :
    ((List.range 16).map (fun i => ContextImpl.collectCount (20 + i) .pool_cache)).sum = 1 ∧
    ContextImpl.collects 22 .pool_cache = true :=
  ⟨(collect_schedule_mod_sixteen 20).2.2.2.2 .pool_cache 6 (by decide),
   ((collect_schedule_mod_sixteen 22).1.2.2.2.2).mpr (by decide)⟩

/-- C16: for every frame and whatever `Cache::collect` does, `ContextImpl::collect` makes
no call on `ray_tracing_pipeline_cache`, `shader_modules` or `descriptor_set_layouts`, and
the three caches are the same after the call as before; this holds over any number of
consecutive frames as well. -/
theorem collect_never_touches_three_caches (cc : Cache → Nat → Nat → Cache)
    (ctx : ContextImpl) (absolute_frame : Nat) :
    ((ContextImpl.collect cc ctx absolute_frame).ray_tracing_pipeline_cache =
        ctx.ray_tracing_pipeline_cache ∧
      (ContextImpl.collect cc ctx absolute_frame).shader_modules = ctx.shader_modules ∧
      (ContextImpl.collect cc ctx absolute_frame).descriptor_set_layouts =
        ctx.descriptor_set_layouts) ∧
    (∀ call ∈ ContextImpl.collectCalls absolute_frame,
      call.target ≠ .ray_tracing_pipeline_cache ∧ call.target ≠ .shader_modules ∧
        call.target ≠ .descriptor_set_layouts) ∧
    (∀ n, (ContextImpl.collectFrames cc ctx absolute_frame n).ray_tracing_pipeline_cache =
        ctx.ray_tracing_pipeline_cache ∧
      (ContextImpl.collectFrames cc ctx absolute_frame n).shader_modules =
        ctx.shader_modules ∧
      (ContextImpl.collectFrames cc ctx absolute_frame n).descriptor_set_layouts =
        ctx.descriptor_set_layouts) := by
  have hcalls : ∀ F, ∀ call ∈ ContextImpl.collectCalls F,
      call.target ≠ .ray_tracing_pipeline_cache ∧ call.target ≠ .shader_modules ∧
        call.target ≠ .descriptor_set_layouts := by
    intro F call hc
    rw [ContextImpl.collectCalls_eq] at hc
    split_ifs at hc <;> simp at hc <;> rcases hc with rfl | rfl <;> simp
  have hone : ∀ (c : ContextImpl) (F : Nat),
      (ContextImpl.collect cc c F).ray_tracing_pipeline_cache = c.ray_tracing_pipeline_cache ∧
      (ContextImpl.collect cc c F).shader_modules = c.shader_modules ∧
      (ContextImpl.collect cc c F).descriptor_set_layouts = c.descriptor_set_layouts := by
    intro c F
    exact ⟨ContextImpl.foldl_applyCall_cache cc _ c .ray_tracing_pipeline_cache
              (fun call hc => (hcalls F call hc).1),
           ContextImpl.foldl_applyCall_cache cc _ c .shader_modules
              (fun call hc => (hcalls F call hc).2.1),
           ContextImpl.foldl_applyCall_cache cc _ c .descriptor_set_layouts
              (fun call hc => (hcalls F call hc).2.2)⟩
  refine ⟨hone ctx absolute_frame, hcalls absolute_frame, ?_⟩
  intro n
  induction n with
  | zero => exact ⟨rfl, rfl, rfl⟩
  | succ n ih =>
    obtain ⟨h1, h2, h3⟩ := hone (ContextImpl.collectFrames cc ctx absolute_frame n)
      (absolute_frame + n)
    exact ⟨h1.trans ih.1, h2.trans ih.2.1, h3.trans ih.2.2⟩

/-- The effect of one `ContextImpl::collect` on a periodically collected cache: it is
collected with maximum age 16 at the frames of its remainder and untouched otherwise. -/
theorem ContextImpl.collect_cache_periodic (cc : Cache → Nat → Nat → Cache)
    (ctx : ContextImpl) (F : Nat) (id : CacheId) (r : Nat) (h : (id, r) ∈ periodicSchedule) :
    (ContextImpl.collect cc ctx F).cache id =
      if F % 16 = r then cc (ctx.cache id) F 16 else ctx.cache id := by
  unfold ContextImpl.collect
  rw [ContextImpl.collectCalls_eq]
  simp only [periodicSchedule, List.mem_cons, Prod.mk.injEq, List.mem_singleton,
    List.not_mem_nil, or_false] at h
  rcases h with ⟨rfl, rfl⟩ | ⟨rfl, rfl⟩ | ⟨rfl, rfl⟩ | ⟨rfl, rfl⟩ | ⟨rfl, rfl⟩ <;>
    (split_ifs <;>
      first
      | omega
      | simp [ContextImpl.applyCall, ContextImpl.setCache, ContextImpl.cache])

/-- Over consecutive frames the transient images are collected with maximum age 6 at
every frame. -/
theorem ContextImpl.collectFrames_transient_succ (cc : Cache → Nat → Nat → Cache)
    (ctx : ContextImpl) (start n : Nat) :
    (ContextImpl.collectFrames cc ctx start (n + 1)).transient_images =
      cc (ContextImpl.collectFrames cc ctx start n).transient_images (start + n) 6 := by
  simp only [ContextImpl.collectFrames]
  exact ContextImpl.collect_transient cc _ _

/-- C15: with `collect` called once for every consecutive frame from `start` on and no
further access, an entry of a periodically collected cache (remainder `r`) last accessed at
frame `L` survives every call before, and is destroyed by, the call of the unique frame
`F` with `F % 16 = r` and `L + 16 < F <= L + 32`; a transient image last accessed at `L`
survives every call before frame `L + 7` and is destroyed by the call of frame `L + 7`. -/
theorem bounded_staleness_of_collected_caches (ctx : ContextImpl) (start : Nat) :
    (∀ id r, (id, r) ∈ periodicSchedule → ∀ e ∈ (ctx.cache id).entries,
      (∃! F, F % 16 = r ∧ e.last_accessed_frame + 16 < F ∧ F ≤ e.last_accessed_frame + 32) ∧
      ∀ F, F % 16 = r → e.last_accessed_frame + 16 < F → F ≤ e.last_accessed_frame + 32 →
        start ≤ F →
        (∀ n, start + n ≤ F →
          e ∈ ((ContextImpl.collectFrames Cache.collect ctx start n).cache id).entries) ∧
        e ∉ ((ContextImpl.collect Cache.collect
              (ContextImpl.collectFrames Cache.collect ctx start (F - start)) F).cache
                id).entries) ∧
    (∀ e ∈ ctx.transient_images.entries, start ≤ e.last_accessed_frame + 7 →
      (∀ n, start + n ≤ e.last_accessed_frame + 7 →
        e ∈ (ContextImpl.collectFrames Cache.collect ctx start n).transient_images.entries) ∧
      e ∉ (ContextImpl.collect Cache.collect
            (ContextImpl.collectFrames Cache.collect ctx start
              (e.last_accessed_frame + 7 - start))
            (e.last_accessed_frame + 7)).transient_images.entries) := by
  refine ⟨?_, ?_⟩
  · intro id r hid e he
    have hr : r < 16 := by
      simp only [periodicSchedule, List.mem_cons, Prod.mk.injEq, List.mem_singleton,
        List.not_mem_nil, or_false] at hid
      omega
    refine ⟨?_, ?_⟩
    · refine ⟨e.last_accessed_frame + 17 + (r + 16 - (e.last_accessed_frame + 17) % 16) % 16,
        ⟨by omega, by omega, by omega⟩, ?_⟩
      rintro G ⟨hG1, hG2, hG3⟩
      omega
    · intro F hF1 hF2 hF3 hstart
      have hsurvive : ∀ n, start + n ≤ F →
          e ∈ ((ContextImpl.collectFrames Cache.collect ctx start n).cache id).entries := by
        intro n
        induction n with
        | zero => exact fun _ => he
        | succ n ih =>
          intro hn
          have hprev := ih (by omega)
          simp only [ContextImpl.collectFrames]
          rw [ContextImpl.collect_cache_periodic _ _ _ id r hid]
          split_ifs with hrem
          · rw [Cache.mem_collect]
            exact ⟨hprev, by omega⟩
          · exact hprev
      refine ⟨hsurvive, ?_⟩
      rw [ContextImpl.collect_cache_periodic _ _ _ id r hid, if_pos hF1, Cache.mem_collect]
      intro h
      exact h.2 (by omega)
  · intro e he hstart
    have hsurvive : ∀ n, start + n ≤ e.last_accessed_frame + 7 →
        e ∈ (ContextImpl.collectFrames Cache.collect ctx start n).transient_images.entries := by
      intro n
      induction n with
      | zero => exact fun _ => he
      | succ n ih =>
        intro hn
        rw [ContextImpl.collectFrames_transient_succ, Cache.mem_collect]
        exact ⟨ih (by omega), by omega⟩
    refine ⟨hsurvive, ?_⟩
    rw [ContextImpl.collect_transient, Cache.mem_collect]
    intro h
    exact h.2 (by omega)

/-- Witness of C15 on `ctxFrame20` with the frames from 4 on: the pipeline-cache entry
last accessed at frame 3 is still live after the calls of frames 4..31 and is destroyed
by the call of frame 32; the transient image last accessed at frame 10 is destroyed by
the call of frame 17. -/
theorem bounded_staleness_of_collected_caches_witness :
    ((⟨2, 2, 3⟩ : CacheEntry) ∈
        ((ContextImpl.collectFrames Cache.collect ctxFrame20 4 28).cache
          .pipeline_cache).entries ∧
      (⟨2, 2, 3⟩ : CacheEntry) ∉
        ((ContextImpl.collect Cache.collect
          (ContextImpl.collectFrames Cache.collect ctxFrame20 4 (32 - 4)) 32).cache
            .pipeline_cache).entries) ∧
    (⟨5, 5, 10⟩ : CacheEntry) ∉
      (ContextImpl.collect Cache.collect
        (ContextImpl.collectFrames Cache.collect ctxFrame20 4 (10 + 7 - 4))
        (10 + 7)).transient_images.entries :=
  ⟨⟨(((bounded_staleness_of_collected_caches ctxFrame20 4).1 .pipeline_cache 0 (by decide)
        ⟨2, 2, 3⟩ (by decide)).2 32 (by decide) (by decide) (by decide) (by decide)).1 28
        (by decide),
    (((bounded_staleness_of_collected_caches ctxFrame20 4).1 .pipeline_cache 0 (by decide)
        ⟨2, 2, 3⟩ (by decide)).2 32 (by decide) (by decide) (by decide) (by decide)).2⟩,
   ((bounded_staleness_of_collected_caches ctxFrame20 4).2 ⟨5, 5, 10⟩ (by decide)
      (by decide)).2⟩

/-! ## Theorems: frame and algebra of the binding flags -/

/-- Distinct triples (set, binding, bit) have distinct positions in the bitset. -/
theorem flagPosition_injective (MB s b k s' b' k' : Nat) (hb : b < MB) (hb' : b' < MB)
    (hk : k < 4) (hk' : k' < 4)
    (h : s * 4 * MB + b * 4 + k = s' * 4 * MB + b' * 4 + k') : s = s' ∧ b = b' ∧ k = k' := by
  have e1 : s * 4 * MB = 4 * (s * MB) := by ring
  have e2 : s' * 4 * MB = 4 * (s' * MB) := by ring
  rw [e1, e2] at h
  have hkk : k = k' := by omega
  have hsum : s * MB + b = s' * MB + b' := by omega
  have hss : s = s' := by
    rcases Nat.lt_trichotomy s s' with hlt | heq | hgt
    · have h1 : (s + 1) * MB ≤ s' * MB := Nat.mul_le_mul_right MB hlt
      have h2 : (s + 1) * MB = s * MB + MB := by ring
      omega
    · exact heq
    · have h1 : (s' + 1) * MB ≤ s * MB := Nat.mul_le_mul_right MB hgt
      have h2 : (s' + 1) * MB = s' * MB + MB := by ring
      omega
  subst hss
  exact ⟨rfl, by omega, hkk⟩

/-- C17: for `set < VUK_MAX_SETS` and `binding < VUK_MAX_BINDINGS`, the four positions
that `set_binding_flags` writes lie within the `4 * VUK_MAX_SETS * VUK_MAX_BINDINGS` bits
of the bitset and the call returns without throwing; the flag bits of every other
in-range pair `(set', binding')` are unchanged, and `variable_count_max` is unchanged. -/
theorem set_binding_flags_touches_one_descriptor {VUK_MAX_BINDINGS : Nat}
    (hMB : 4 * VUK_MAX_SETS * VUK_MAX_BINDINGS < 2 ^ 31)
    (self : PipelineBaseCreateInfoBase VUK_MAX_BINDINGS) (set binding f : Nat)
    (hs : set < VUK_MAX_SETS) (hb : binding < VUK_MAX_BINDINGS) :
    (∀ k, k < 4 →
      flagPosition VUK_MAX_BINDINGS set binding k < 4 * VUK_MAX_SETS * VUK_MAX_BINDINGS) ∧
    ∃ s', self.set_binding_flags set binding f = .ok s' ∧
      (∀ set' binding' k : Nat, set' < VUK_MAX_SETS → binding' < VUK_MAX_BINDINGS → k < 4 →
        (set', binding') ≠ (set, binding) →
        s'.binding_flags.test (set' * 4 * VUK_MAX_BINDINGS + binding' * 4 + k) =
          self.binding_flags.test (set' * 4 * VUK_MAX_BINDINGS + binding' * 4 + k)) ∧
      s'.variable_count_max = self.variable_count_max := by
  refine ⟨?_, ?_⟩
  · intro k hk
    obtain ⟨e, l⟩ := flagPosition_in_range VUK_MAX_BINDINGS set binding k hMB hs hb hk
    rw [e]
    exact l
  · obtain ⟨s1, h1, hv1, hbits1⟩ :=
      PipelineBaseCreateInfoBase.set_binding_flags_ok hMB self set binding f hs hb
    refine ⟨s1, h1, ?_, hv1⟩
    intro set' binding' k hs' hb' hk hne
    obtain ⟨_, l⟩ := flagPosition_in_range VUK_MAX_BINDINGS set' binding' k hMB hs' hb' hk
    rw [bitset.test_of_lt _ _ l, bitset.test_of_lt _ _ l, hbits1]
    have hdiff : ∀ k', k' < 4 →
        set' * 4 * VUK_MAX_BINDINGS + binding' * 4 + k ≠
          set * 4 * VUK_MAX_BINDINGS + binding * 4 + k' := by
      intro k' hk' heq
      obtain ⟨h1, h2, _⟩ :=
        flagPosition_injective VUK_MAX_BINDINGS set' binding' k set binding k' hb' hb hk hk' heq
      exact hne (by rw [h1, h2])
    simp only [hdiff 3 (by omega), hdiff 2 (by omega), hdiff 1 (by omega),
      hdiff 0 (by omega), if_false]

/-- Witness of C17 with `VUK_MAX_BINDINGS = 2`: writing the flags of descriptor `(1, 1)` of
`baseWithVariableCount` leaves the variable-count bit of descriptor `(1, 0)` as it was. -/
theorem set_binding_flags_touches_one_descriptor_witness :
    ∃ s', baseWithVariableCount.set_binding_flags 1 1 0b0101 = .ok s' ∧
      s'.binding_flags.test (1 * 4 * 2 + 0 * 4 + 3) =
        baseWithVariableCount.binding_flags.test (1 * 4 * 2 + 0 * 4 + 3) ∧
      s'.variable_count_max = baseWithVariableCount.variable_count_max :=
  match (set_binding_flags_touches_one_descriptor (by decide) baseWithVariableCount 1 1 0b0101
      (by decide) (by decide)).2 with
  | ⟨s', h1, h2, h3⟩ => ⟨s', h1, h2 1 0 3 (by decide) (by decide) (by decide) (by decide), h3⟩

/-- C18: for `set < VUK_MAX_SETS` and `binding < VUK_MAX_BINDINGS`,
`set_variable_count_binding(set, binding, m)` returns normally and changes only
variable-count bits of `set`: the flag bits 0..2 of every binding of `set` are unchanged,
all four flag bits of every binding of every other set are unchanged, and
`variable_count_max[s]` is unchanged for every `s` other than `set`. -/
theorem set_variable_count_binding_touches_only_variable_count_bits {VUK_MAX_BINDINGS : Nat}
    (hMB : 4 * VUK_MAX_SETS * VUK_MAX_BINDINGS < 2 ^ 31)
    (self : PipelineBaseCreateInfoBase VUK_MAX_BINDINGS) (set binding m : Nat)
    (hs : set < VUK_MAX_SETS) (hb : binding < VUK_MAX_BINDINGS) :
    ∃ s', self.set_variable_count_binding set binding m = .ok s' ∧
      (∀ j k : Nat, j < VUK_MAX_BINDINGS → k < 3 →
        s'.binding_flags.test (set * 4 * VUK_MAX_BINDINGS + j * 4 + k) =
          self.binding_flags.test (set * 4 * VUK_MAX_BINDINGS + j * 4 + k)) ∧
      (∀ set' j k : Nat, set' < VUK_MAX_SETS → set' ≠ set → j < VUK_MAX_BINDINGS → k < 4 →
        s'.binding_flags.test (set' * 4 * VUK_MAX_BINDINGS + j * 4 + k) =
          self.binding_flags.test (set' * 4 * VUK_MAX_BINDINGS + j * 4 + k)) ∧
      (∀ s : Fin VUK_MAX_SETS, s.val ≠ set →
        s'.variable_count_max s = self.variable_count_max s) := by
  obtain ⟨s1, h1, hv1, hbits1⟩ :=
    PipelineBaseCreateInfoBase.set_variable_count_binding_ok hMB self set binding m hs hb
  refine ⟨s1, h1, ?_, ?_, ?_⟩
  · intro j k hj hk
    obtain ⟨_, l⟩ := flagPosition_in_range VUK_MAX_BINDINGS set j k hMB hs hj (by omega)
    rw [bitset.test_of_lt _ _ l, bitset.test_of_lt _ _ l]
    rw [(hbits1 ⟨_, l⟩).2.2]
    rintro ⟨j', hj', heq⟩
    have := flagPosition_injective VUK_MAX_BINDINGS set j k set j' 3 hj hj' (by omega)
      (by omega) heq
    omega
  · intro set' j k hs' hne hj hk
    obtain ⟨_, l⟩ := flagPosition_in_range VUK_MAX_BINDINGS set' j k hMB hs' hj hk
    rw [bitset.test_of_lt _ _ l, bitset.test_of_lt _ _ l]
    rw [(hbits1 ⟨_, l⟩).2.2]
    rintro ⟨j', hj', heq⟩
    exact hne (flagPosition_injective VUK_MAX_BINDINGS set' j k set j' 3 hj hj' hk
      (by omega) heq).1
  · intro s hne
    rw [hv1, Function.update_apply]
    have : s ≠ ⟨set, hs⟩ := fun h => hne (by rw [h])
    simp [this]

/-- Witness of C18 with `VUK_MAX_BINDINGS = 2` on `baseWithVariableCount`: moving the
variable-count binding of set 1 leaves `variable_count_max[0]` as it was. -/
theorem set_variable_count_binding_touches_only_variable_count_bits_witness :
    ∃ s', baseWithVariableCount.set_variable_count_binding 1 1 100 = .ok s' ∧
      s'.variable_count_max ⟨0, by decide⟩ =
        baseWithVariableCount.variable_count_max ⟨0, by decide⟩ :=
  match set_variable_count_binding_touches_only_variable_count_bits (by decide)
      baseWithVariableCount 1 1 100 (by decide) (by decide) with
  | ⟨s', h1, _, _, h4⟩ => ⟨s', h1, h4 ⟨0, by decide⟩ (by decide)⟩

/-- C19: for in-range `(set, binding)`, `set_binding_flags(set, binding, f1)` followed by
`set_binding_flags(set, binding, f2)` returns normally with the same state as
`set_binding_flags(set, binding, f2)` alone; in particular the call repeated with the
same flags gives the state of the single call. -/
theorem set_binding_flags_overwrites {VUK_MAX_BINDINGS : Nat}
    (hMB : 4 * VUK_MAX_SETS * VUK_MAX_BINDINGS < 2 ^ 31)
    (self : PipelineBaseCreateInfoBase VUK_MAX_BINDINGS) (set binding f1 f2 : Nat)
    (hs : set < VUK_MAX_SETS) (hb : binding < VUK_MAX_BINDINGS) :
    (∃ s2, self.set_binding_flags set binding f2 = .ok s2 ∧
      (self.set_binding_flags set binding f1 >>= fun s1 =>
        s1.set_binding_flags set binding f2) = .ok s2) ∧
    (self.set_binding_flags set binding f1 >>= fun s1 =>
        s1.set_binding_flags set binding f1) = self.set_binding_flags set binding f1 := by
  have key : ∀ g1 g2 : Nat, ∃ s2, self.set_binding_flags set binding g2 = .ok s2 ∧
      (self.set_binding_flags set binding g1 >>= fun s1 =>
        s1.set_binding_flags set binding g2) = .ok s2 := by
    intro g1 g2
    obtain ⟨s1, h1, hv1, hbits1⟩ :=
      PipelineBaseCreateInfoBase.set_binding_flags_ok hMB self set binding g1 hs hb
    obtain ⟨s12, h12, hv12, hbits12⟩ :=
      PipelineBaseCreateInfoBase.set_binding_flags_ok hMB s1 set binding g2 hs hb
    obtain ⟨s2, h2, hv2, hbits2⟩ :=
      PipelineBaseCreateInfoBase.set_binding_flags_ok hMB self set binding g2 hs hb
    refine ⟨s2, h2, ?_⟩
    rw [h1]
    simp only [bind, Except.bind]
    rw [h12]
    have hflags : s12.binding_flags = s2.binding_flags := by
      funext i
      rw [hbits12, hbits2, hbits1]
      split_ifs <;> rfl
    cases s12
    cases s2
    simp only at hflags hv12 hv2
    rw [hflags, hv12, hv1, hv2]
  refine ⟨key f1 f2, ?_⟩
  obtain ⟨s, hs1, hs2⟩ := key f1 f1
  rw [hs2, hs1]

/-- Witness of C19 with `VUK_MAX_BINDINGS = 2`: on the default value, flags `0b1111` and
then `0b0010` on descriptor `(3, 1)` give the state of `0b0010` alone. -/
theorem set_binding_flags_overwrites_witness :
    ∃ s2, (PipelineBaseCreateInfoBase.default 2).set_binding_flags 3 1 0b0010 = .ok s2 ∧
      ((PipelineBaseCreateInfoBase.default 2).set_binding_flags 3 1 0b1111 >>= fun s1 =>
        s1.set_binding_flags 3 1 0b0010) = .ok s2 :=
  (set_binding_flags_overwrites (by decide) (PipelineBaseCreateInfoBase.default 2) 3 1
    0b1111 0b0010 (by decide) (by decide)).1

/-! ## Theorems: the variable-count invariant -/

/-- The default-constructed value has no variable-count binding at all. -/
theorem PipelineBaseCreateInfoBase.atMostOneVariableCount_default (MB : Nat) :
    (PipelineBaseCreateInfoBase.default MB).atMostOneVariableCount := by
  intro set b1 b2 _ _ _ h1 _
  unfold bitset.test PipelineBaseCreateInfoBase.default at h1
  split at h1 <;> simp at h1

/-- The variable-count bits after an in-range `set_binding_flags`: bit 3 of `f` on the
descriptor written, the previous bit on every other descriptor. -/
theorem PipelineBaseCreateInfoBase.set_binding_flags_variable_count_bit {MB : Nat}
    (hMB : 4 * VUK_MAX_SETS * MB < 2 ^ 31) (self : PipelineBaseCreateInfoBase MB)
    (set binding f : Nat) (hs : set < VUK_MAX_SETS) (hb : binding < MB) :
    ∃ s', self.set_binding_flags set binding f = .ok s' ∧
      s'.variable_count_max = self.variable_count_max ∧
      s'.binding_flags.test (set * 4 * MB + binding * 4 + 3) = .ok (f.testBit 3) ∧
      ∀ set0 j : Nat, set0 < VUK_MAX_SETS → j < MB → (set0, j) ≠ (set, binding) →
        s'.binding_flags.test (set0 * 4 * MB + j * 4 + 3) =
          self.binding_flags.test (set0 * 4 * MB + j * 4 + 3) := by
  obtain ⟨s1, h1, hv1, hbits1⟩ :=
    PipelineBaseCreateInfoBase.set_binding_flags_ok hMB self set binding f hs hb
  refine ⟨s1, h1, hv1, ?_, ?_⟩
  · obtain ⟨_, l⟩ := flagPosition_in_range MB set binding 3 hMB hs hb (by omega)
    rw [bitset.test_of_lt _ _ l, hbits1]
    simp
  · intro set0 j hs0 hj hne
    obtain ⟨_, l⟩ := flagPosition_in_range MB set0 j 3 hMB hs0 hj (by omega)
    rw [bitset.test_of_lt _ _ l, bitset.test_of_lt _ _ l, hbits1]
    have hdiff : ∀ k', k' < 4 →
        set0 * 4 * MB + j * 4 + 3 ≠ set * 4 * MB + binding * 4 + k' := by
      intro k' hk' heq
      obtain ⟨h1, h2, _⟩ :=
        flagPosition_injective MB set0 j 3 set binding k' hj hb (by omega) hk' heq
      exact hne (by rw [h1, h2])
    simp only [hdiff 3 (by omega), hdiff 2 (by omega), hdiff 1 (by omega),
      hdiff 0 (by omega), if_false]

/-- An in-range `set_binding_flags` on a value with at most one variable-count binding
per set keeps that property exactly when bit 3 of the flags is clear or no other binding
of the set has its variable-count bit set. -/
theorem PipelineBaseCreateInfoBase.set_binding_flags_invariant_iff {MB : Nat}
    (hMB : 4 * VUK_MAX_SETS * MB < 2 ^ 31) (self : PipelineBaseCreateInfoBase MB)
    (set binding f : Nat) (hs : set < VUK_MAX_SETS) (hb : binding < MB)
    (hinv : self.atMostOneVariableCount) :
    ∃ s', self.set_binding_flags set binding f = .ok s' ∧
      s'.variable_count_max = self.variable_count_max ∧
      (s'.atMostOneVariableCount ↔
        (f.testBit 3 = false ∨
          ∀ j : Nat, j < MB → j ≠ binding →
            self.binding_flags.test (set * 4 * MB + j * 4 + 3) = .ok false)) := by
  obtain ⟨s1, h1, hv1, hown, hother⟩ :=
    PipelineBaseCreateInfoBase.set_binding_flags_variable_count_bit hMB self set binding f hs hb
  refine ⟨s1, h1, hv1, ?_, ?_⟩
  · intro hinv1
    by_cases hf : f.testBit 3 = false
    · exact Or.inl hf
    · right
      intro j hj hne
      obtain ⟨_, l⟩ := flagPosition_in_range MB set j 3 hMB hs hj (by omega)
      rw [bitset.test_of_lt _ _ l]
      cases hbit : self.binding_flags ⟨_, l⟩ with
      | false => rfl
      | true =>
        exfalso
        apply hne
        apply hinv1 set j binding hs hj hb
        · rw [hother set j hs hj (by intro h; exact hne (Prod.mk.inj h).2),
            bitset.test_of_lt _ _ l, hbit]
        · rw [hown]
          simp at hf
          rw [hf]
  · intro hcond set0 b1 b2 hs0 hb1 hb2 ht1 ht2
    by_cases e1 : (set0, b1) = (set, binding)
    · by_cases e2 : (set0, b2) = (set, binding)
      · have := (Prod.mk.inj e1).2
        have := (Prod.mk.inj e2).2
        omega
      · exfalso
        obtain ⟨hset, hbb⟩ := Prod.mk.inj e1
        subst hset
        subst hbb
        rw [hown] at ht1
        rw [hother set0 b2 hs0 hb2 e2] at ht2
        rcases hcond with hf | hno
        · simp [hf] at ht1
        · rw [hno b2 hb2 (by intro h; exact e2 (by rw [h]))] at ht2
          simp at ht2
    · by_cases e2 : (set0, b2) = (set, binding)
      · exfalso
        obtain ⟨hset, hbb⟩ := Prod.mk.inj e2
        subst hset
        subst hbb
        rw [hown] at ht2
        rw [hother set0 b1 hs0 hb1 e1] at ht1
        rcases hcond with hf | hno
        · simp [hf] at ht2
        · rw [hno b1 hb1 (by intro h; exact e1 (by rw [h]))] at ht1
          simp at ht1
      · rw [hother set0 b1 hs0 hb1 e1] at ht1
        rw [hother set0 b2 hs0 hb2 e2] at ht2
        exact hinv set0 b1 b2 hs0 hb1 hb2 ht1 ht2

/-- An in-range `set_variable_count_binding` on a value with at most one variable-count
binding per set keeps that property; afterwards `binding` is the variable-count binding
of `set` and `variable_count_max[set]` is the count given. -/
theorem PipelineBaseCreateInfoBase.set_variable_count_binding_invariant {MB : Nat}
    (hMB : 4 * VUK_MAX_SETS * MB < 2 ^ 31) (self : PipelineBaseCreateInfoBase MB)
    (set binding m : Nat) (hs : set < VUK_MAX_SETS) (hb : binding < MB)
    (hinv : self.atMostOneVariableCount) :
    ∃ s', self.set_variable_count_binding set binding m = .ok s' ∧
      s'.atMostOneVariableCount ∧
      s'.binding_flags.test (set * 4 * MB + binding * 4 + 3) = .ok true ∧
      s'.variable_count_max ⟨set, hs⟩ = m := by
  obtain ⟨s1, h1, hv1, hbits1⟩ :=
    PipelineBaseCreateInfoBase.set_variable_count_binding_ok hMB self set binding m hs hb
  refine ⟨s1, h1, ?_, ?_, ?_⟩
  · intro set0 b1 b2 hs0 hb1 hb2 ht1 ht2
    obtain ⟨_, l1⟩ := flagPosition_in_range MB set0 b1 3 hMB hs0 hb1 (by omega)
    obtain ⟨_, l2⟩ := flagPosition_in_range MB set0 b2 3 hMB hs0 hb2 (by omega)
    by_cases hset : set0 = set
    · subst hset
      have hone : ∀ b, b < MB → (l : set0 * 4 * MB + b * 4 + 3 < 4 * VUK_MAX_SETS * MB) →
          s1.binding_flags.test (set0 * 4 * MB + b * 4 + 3) = .ok true → b = binding := by
        intro b hbb l ht
        by_contra hne
        have hpos : set0 * 4 * MB + b * 4 + 3 ≠ set0 * 4 * MB + binding * 4 + 3 := by omega
        rw [bitset.test_of_lt _ _ l, (hbits1 ⟨_, l⟩).2.1 hpos ⟨b, hbb, rfl⟩] at ht
        simp at ht
      rw [hone b1 hb1 l1 ht1, hone b2 hb2 l2 ht2]
    · have hkeep : ∀ b, b < MB → (l : set0 * 4 * MB + b * 4 + 3 < 4 * VUK_MAX_SETS * MB) →
          s1.binding_flags.test (set0 * 4 * MB + b * 4 + 3) =
            self.binding_flags.test (set0 * 4 * MB + b * 4 + 3) := by
        intro b hbb l
        rw [bitset.test_of_lt _ _ l, bitset.test_of_lt _ _ l, (hbits1 ⟨_, l⟩).2.2]
        rintro ⟨j', hj', heq⟩
        exact hset (flagPosition_injective MB set0 b 3 set j' 3 hbb hj' (by omega)
          (by omega) heq).1
      rw [hkeep b1 hb1 l1] at ht1
      rw [hkeep b2 hb2 l2] at ht2
      exact hinv set0 b1 b2 hs0 hb1 hb2 ht1 ht2
  · obtain ⟨_, l⟩ := flagPosition_in_range MB set binding 3 hMB hs hb (by omega)
    rw [bitset.test_of_lt _ _ l, (hbits1 ⟨_, l⟩).1 rfl]
  · rw [hv1]
    simp

/-- C20 (counterexample): with `VUK_MAX_BINDINGS = 2`, starting from the default value,
`set_binding_flags(0, 0, 0x8)` gives a value with one variable-count binding in set 0,
and the in-range call `set_binding_flags(0, 1, 0x8)` on it gives a value in which two
bindings of set 0 have the variable-count bit set: the call does not preserve the
invariant. -/
theorem set_binding_flags_breaks_variable_count_invariant :
    ∃ s1 s2, (PipelineBaseCreateInfoBase.default 2).set_binding_flags 0 0 0b1000 = .ok s1 ∧
      s1.set_binding_flags 0 1 0b1000 = .ok s2 ∧
      s1.atMostOneVariableCount ∧ ¬ s2.atMostOneVariableCount ∧
      s2.binding_flags.test (0 * 4 * 2 + 0 * 4 + 3) = .ok true ∧
      s2.binding_flags.test (0 * 4 * 2 + 1 * 4 + 3) = .ok true := by
  have hMB : 4 * VUK_MAX_SETS * 2 < 2 ^ 31 := by decide
  obtain ⟨s1, h1, _, hown1, _⟩ :=
    PipelineBaseCreateInfoBase.set_binding_flags_variable_count_bit hMB
      (PipelineBaseCreateInfoBase.default 2) 0 0 0b1000 (by decide) (by decide)
  obtain ⟨t1, g1, _, hiff1⟩ :=
    PipelineBaseCreateInfoBase.set_binding_flags_invariant_iff hMB
      (PipelineBaseCreateInfoBase.default 2) 0 0 0b1000 (by decide) (by decide)
      (PipelineBaseCreateInfoBase.atMostOneVariableCount_default 2)
  have ht : t1 = s1 := Except.ok.inj (g1.symm.trans h1)
  subst ht
  have hinv1 : t1.atMostOneVariableCount := by
    apply hiff1.mpr
    right
    intro j hj _
    have l : 0 * 4 * 2 + j * 4 + 3 < 4 * VUK_MAX_SETS * 2 := by
      unfold VUK_MAX_SETS
      omega
    rw [bitset.test_of_lt _ _ l]
    rfl
  obtain ⟨s2, h2, _, hiff2⟩ :=
    PipelineBaseCreateInfoBase.set_binding_flags_invariant_iff hMB t1 0 1 0b1000
      (by decide) (by decide) hinv1
  obtain ⟨u2, g2, _, hown2, hother2⟩ :=
    PipelineBaseCreateInfoBase.set_binding_flags_variable_count_bit hMB t1 0 1 0b1000
      (by decide) (by decide)
  have hu : u2 = s2 := Except.ok.inj (g2.symm.trans h2)
  subst hu
  refine ⟨t1, u2, h1, h2, hinv1, ?_,
    (hother2 0 0 (by decide) (by decide) (by decide)).trans hown1, hown2⟩
  intro hinv2
  rcases hiff2.mp hinv2 with hf | hno
  · revert hf
    decide
  · have h0 := hno 0 (by decide) (by decide)
    rw [hown1] at h0
    have hbit := Except.ok.inj h0
    revert hbit
    decide

/-- C20 (amended): the invariant "in every set at most one binding has the variable-count
flag bit set" holds for the default-constructed value; an in-range
`set_variable_count_binding` preserves it, and makes `binding` the variable-count
binding of `set` with `variable_count_max[set]` the count given; an in-range
`set_binding_flags` leaves `variable_count_max` as it was and preserves the invariant
exactly when bit 3 of the flags is clear or no other binding of the set has its
variable-count bit set. -/
theorem variable_count_invariant_preserved {VUK_MAX_BINDINGS : Nat}
    (hMB : 4 * VUK_MAX_SETS * VUK_MAX_BINDINGS < 2 ^ 31) :
    (PipelineBaseCreateInfoBase.default VUK_MAX_BINDINGS).atMostOneVariableCount ∧
    (∀ (self : PipelineBaseCreateInfoBase VUK_MAX_BINDINGS) (set binding m : Nat)
        (hs : set < VUK_MAX_SETS), binding < VUK_MAX_BINDINGS → self.atMostOneVariableCount →
      ∃ s', self.set_variable_count_binding set binding m = .ok s' ∧
        s'.atMostOneVariableCount ∧
        s'.binding_flags.test (set * 4 * VUK_MAX_BINDINGS + binding * 4 + 3) = .ok true ∧
        s'.variable_count_max ⟨set, hs⟩ = m) ∧
    (∀ (self : PipelineBaseCreateInfoBase VUK_MAX_BINDINGS) (set binding f : Nat),
        set < VUK_MAX_SETS → binding < VUK_MAX_BINDINGS → self.atMostOneVariableCount →
      ∃ s', self.set_binding_flags set binding f = .ok s' ∧
        s'.variable_count_max = self.variable_count_max ∧
        (s'.atMostOneVariableCount ↔
          (f.testBit 3 = false ∨
            ∀ j : Nat, j < VUK_MAX_BINDINGS → j ≠ binding →
              self.binding_flags.test (set * 4 * VUK_MAX_BINDINGS + j * 4 + 3) =
                .ok false))) :=
  ⟨PipelineBaseCreateInfoBase.atMostOneVariableCount_default VUK_MAX_BINDINGS,
   fun self set binding m hs hb hinv =>
     PipelineBaseCreateInfoBase.set_variable_count_binding_invariant hMB self set binding m
       hs hb hinv,
   fun self set binding f hs hb hinv =>
     PipelineBaseCreateInfoBase.set_binding_flags_invariant_iff hMB self set binding f
       hs hb hinv⟩

/-- Witness of the amended C20 with `VUK_MAX_BINDINGS = 2`: the default value satisfies the
invariant, and so does the value after `set_variable_count_binding(1, 1, 100)`. -/
theorem variable_count_invariant_preserved_witness :
    (PipelineBaseCreateInfoBase.default 2).atMostOneVariableCount ∧
    ∃ s', (PipelineBaseCreateInfoBase.default 2).set_variable_count_binding 1 1 100 = .ok s' ∧
      s'.atMostOneVariableCount :=
  ⟨(@variable_count_invariant_preserved 2 (by decide)).1,
   match (@variable_count_invariant_preserved 2 (by decide)).2.1
      (PipelineBaseCreateInfoBase.default 2) 1 1 100 (by decide) (by decide)
      (PipelineBaseCreateInfoBase.atMostOneVariableCount_default 2) with
   | ⟨s', h1, h2, _, _⟩ => ⟨s', h1, h2⟩⟩

/-! ## Theorems: unresolved names and futures -/

/-- The names defined by the graph `as_build` of example 12. -/
theorem as_build_definedNames :
    as_build.definedNames = ["verts", "inds", "blas_buf", "tlas_buf", "blas_buf+", "tlas_buf+"] := by
  decide

/-- The names defined by the graph `rg("12")` of example 12. -/
theorem rg12_definedNames :
    rg12.definedNames = ["12_rt", "tlas", "12_rt_target", "tlas+", "12_rt_target+", "12_rt+"] := by
  decide

/-- The use chains of the graph `as_build` of example 12. -/
theorem as_build_useChains :
    as_build.useChains = .ok
      [ ("blas_buf", [(0, ⟨"blas_buf", .eAccelerationStructureBuildWrite⟩),
                      (1, ⟨"blas_buf+", .eAccelerationStructureBuildRead⟩)]),
        ("verts", [(0, ⟨"verts", .eAccelerationStructureBuildRead⟩)]),
        ("inds", [(0, ⟨"inds", .eAccelerationStructureBuildRead⟩)]),
        ("tlas_buf", [(1, ⟨"tlas_buf", .eAccelerationStructureBuildWrite⟩)]) ] := by
  rfl

/-- A failing `mapM` in `Except` reports the error of one of its inputs. -/
theorem mapM_error_elim {α β ε : Type} (f : α → Except ε β) (l : List α) (e : ε)
    (h : l.mapM f = .error e) : ∃ x ∈ l, f x = .error e := by
  induction l with
  | nil =>
    simp only [List.mapM_nil, pure, Except.pure] at h
    cases h
  | cons a as ih =>
    rw [List.mapM_cons] at h
    cases ha : f a with
    | error ea =>
      rw [ha] at h
      simp only [bind, Except.bind, Except.error.injEq] at h
      subst h
      exact ⟨a, List.mem_cons_self _ _, ha⟩
    | ok y =>
      cases has : as.mapM f with
      | error eas =>
        rw [ha, has] at h
        simp only [bind, Except.bind, Except.error.injEq] at h
        subst h
        obtain ⟨x, hx, hfx⟩ := ih has
        exact ⟨x, List.mem_cons_of_mem _ hx, hfx⟩
      | ok ys =>
        rw [ha, has] at h
        simp only [bind, Except.bind, pure, Except.pure] at h
        cases h

/-- A `mapM` in `Except` fails when the function fails on one of the inputs. -/
theorem mapM_error_of_mem {α β ε : Type} (f : α → Except ε β) (l : List α) (x : α) (e : ε)
    (hx : x ∈ l) (hfx : f x = .error e) : ∃ e', l.mapM f = .error e' := by
  cases h : l.mapM f with
  | error e' => exact ⟨e', rfl⟩
  | ok out =>
    obtain ⟨y, _, hy⟩ := mapM_ok_mem_out f l out h x hx
    rw [hfx] at hy
    cases hy

/-- With no earlier declared pass writing the resource, there is no latest prior write. -/
theorem latestPriorWrite_none (passes : List Pass) (j : Nat) (r : String)
    (h : ∀ i, i < j → (passes.getD i ⟨[]⟩).writes r = false) :
    latestPriorWrite passes j r = none := by
  unfold latestPriorWrite
  rw [List.getLast?_eq_none_iff, List.filter_eq_nil_iff]
  intro i hi
  rw [h i (List.mem_range.mp hi)]
  simp

/-- The only error of the resolution of a declaration is the unresolved name of that
declaration, and it means that no earlier declared pass writes its resource and that the
name has no external binding. -/
theorem resolveDeclaration_error (g : RenderGraph) (j : Nat) (d : Resource) (e : CompileError)
    (h : resolveDeclaration g j d = .error e) :
    e = .unresolved d.name ∧ latestPriorWrite g.passes j (resourceOf d.name) = none ∧
      d.name ∉ g.attachments := by
  unfold resolveDeclaration at h
  split at h
  · cases h
  · rename_i hnone
    split at h
    · cases h
    · rename_i hc
      simp only [Except.error.injEq] at h
      refine ⟨h.symm, hnone, ?_⟩
      intro hmem
      apply hc
      simp [hmem]

/-- The compilation fails exactly with the errors of the resolution of its declarations. -/
theorem RenderGraph.compile_error (g : RenderGraph) (e : CompileError)
    (h : g.compile = .error e) :
    ∃ j d, j < g.passes.length ∧ d ∈ (g.passes.getD j ⟨[]⟩).resources ∧
      resolveDeclaration g j d = .error e := by
  cases hd : (List.range g.passes.length).mapM (passDependencies g) with
  | error e' =>
    have he : e' = e := by
      unfold RenderGraph.compile at h
      rw [hd] at h
      simp only [bind, Except.bind, Except.error.injEq] at h
      exact h
    subst he
    obtain ⟨j, hj, hpj⟩ := mapM_error_elim _ _ _ hd
    unfold passDependencies at hpj
    cases hb : ((g.passes.getD j ⟨[]⟩).resources).mapM (resolveDeclaration g j) with
    | error e'' =>
      rw [hb] at hpj
      simp only [bind, Except.bind, Except.error.injEq] at hpj
      subst hpj
      obtain ⟨d, hdm, hres⟩ := mapM_error_elim _ _ _ hb
      exact ⟨j, d, List.mem_range.mp hj, hdm, hres⟩
    | ok bound =>
      rw [hb] at hpj
      simp only [bind, Except.bind, pure, Except.pure] at hpj
      cases hpj
  | ok deps =>
    exfalso
    have hall := mapM_ok_forall₂ _ _ _ hd
    have hok : ∃ order, g.compile = .ok order := by
      rw [RenderGraph.compile_ok_iff]
      intro j hj
      have hj2 : j < (List.range g.passes.length).length := by
        rw [List.length_range]
        exact hj
      have hj3 : j < deps.length := by
        rw [← hall.length_eq]
        exact hj2
      have hget := hall.get hj2 hj3
      simp only [List.get_eq_getElem, List.getElem_range] at hget
      exact ⟨_, hget⟩
    obtain ⟨order, ho⟩ := hok
    rw [ho] at h
    cases h

/-- The compilation fails when the resolution of one declaration fails. -/
theorem RenderGraph.compile_error_of_unresolved (g : RenderGraph) (j : Nat) (d : Resource)
    (e : CompileError) (hd : d ∈ (g.passes.getD j ⟨[]⟩).resources)
    (hres : resolveDeclaration g j d = .error e) : ∃ e', g.compile = .error e' := by
  cases hc : g.compile with
  | error e' => exact ⟨e', rfl⟩
  | ok order =>
    exfalso
    have hj : j < g.passes.length := by
      by_contra hge
      rw [List.getD_eq_default _ _ (by omega)] at hd
      cases hd
    obtain ⟨ds, hds⟩ := (RenderGraph.compile_ok_iff g).mp ⟨order, hc⟩ j hj
    unfold passDependencies at hds
    obtain ⟨e', he'⟩ := mapM_error_of_mem (resolveDeclaration g j) _ d e hd hres
    rw [he'] at hds
    simp only [bind, Except.bind] at hds
    cases hds

/-- No latest prior write means that no earlier declared pass writes the resource. -/
theorem latestPriorWrite_none_elim (passes : List Pass) (j : Nat) (r : String)
    (h : latestPriorWrite passes j r = none) :
    ∀ i, i < j → (passes.getD i ⟨[]⟩).writes r = false := by
  intro i hi
  cases hw : (passes.getD i ⟨[]⟩).writes r with
  | false => rfl
  | true =>
    obtain ⟨k, hk, _⟩ := latestPriorWrite_ge passes j r i hi hw
    rw [h] at hk
    cases hk

/-- The graph `as_build` without the binding of `verts` does not compile. -/
theorem asBuildWithoutVerts_compile :
    asBuildWithoutVerts.compile = .error (.unresolved "verts") := rfl

/-- C12: when a pass declares (in particular reads) a resource name that no earlier
declared pass writes and that has no external binding, compiling the graph yields a
`CompileError`: an unresolved name, which is the name of such a dangling declaration; and
the graph is not submitted. -/
theorem unresolved_name_yields_compile_error (g : RenderGraph) (j : Nat) (d : Resource)
    (hd : d ∈ (g.passes.getD j ⟨[]⟩).resources)
    (hnowrite : ∀ i, i < j → (g.passes.getD i ⟨[]⟩).writes (resourceOf d.name) = false)
    (hnobind : d.name ∉ g.attachments) :
    (∃ name, g.compile = .error (.unresolved name) ∧
      ∃ j' d', j' < g.passes.length ∧ d' ∈ (g.passes.getD j' ⟨[]⟩).resources ∧
        d'.name = name ∧ name ∉ g.attachments ∧
        ∀ i, i < j' → (g.passes.getD i ⟨[]⟩).writes (resourceOf name) = false) ∧
    g.submit = none := by
  have hres : resolveDeclaration g j d = .error (.unresolved d.name) := by
    unfold resolveDeclaration
    rw [latestPriorWrite_none _ _ _ hnowrite]
    have hc : g.attachments.contains d.name = false := by
      simpa using hnobind
    simp only [hc]
    rfl
  obtain ⟨e, he⟩ := RenderGraph.compile_error_of_unresolved g j d _ hd hres
  obtain ⟨j', d', hj', hd', hres'⟩ := RenderGraph.compile_error g e he
  obtain ⟨hname, hnone, hnb⟩ := resolveDeclaration_error g j' d' e hres'
  subst hname
  refine ⟨⟨d'.name, he, j', d', hj', hd', rfl, hnb, latestPriorWrite_none_elim _ _ _ hnone⟩, ?_⟩
  unfold RenderGraph.submit
  rw [he]

/-- Witness of C12 on `asBuildWithoutVerts`, whose first pass reads `verts`: the graph is
not submitted. -/
theorem unresolved_name_yields_compile_error_witness :
    asBuildWithoutVerts.submit = none :=
  (unresolved_name_yields_compile_error asBuildWithoutVerts 0
    ⟨"verts", .eAccelerationStructureBuildRead⟩ (by decide)
    (fun i hi => absurd hi (Nat.not_lt_zero i)) (by decide)).2

/-- C13 (the code at the failing input): the future of `setup` names `tlas_buf+`, which
the graph `as_build` defines by the write of `tlas_buf`; the future returned by `render`
names `12_rt_final`, which the graph `rg("12")` does not define: it attaches `12_rt`,
`tlas` and `12_rt_target`, and its writes define `tlas+`, `12_rt_target+` and `12_rt+`. -/
theorem render_future_names_undefined_resource :
    setupFuture.fragment.definesName setupFuture.output_name = true ∧
    renderFuture.output_name = "12_rt_final" ∧
    renderFuture.fragment.definedNames =
      ["12_rt", "tlas", "12_rt_target", "tlas+", "12_rt_target+", "12_rt+"] ∧
    renderFuture.fragment.definesName renderFuture.output_name = false := by
  decide

/-! ## Theorems: the pipeline-base key and `add_shader` -/

/-- C21: two `PipelineBaseCreateInfo` values with equal `shaders`, `rasterization_state`,
`color_blend_state`, `color_blend_attachments`, `depth_stencil_state`, `binding_flags`
and `variable_count_max` compare equal with `operator==` and have equal hashes, whatever
their `shader_paths`: the key is the shader content, not the file name. -/
theorem pipeline_base_key_ignores_shader_paths {VUK_MAX_BINDINGS : Nat} (env : HashEnv)
    (a b : PipelineBaseCreateInfo VUK_MAX_BINDINGS)
    (hshaders : a.shaders = b.shaders)
    (hraster : a.rasterization_state = b.rasterization_state)
    (hblend : a.color_blend_state = b.color_blend_state)
    (hattachments : a.color_blend_attachments = b.color_blend_attachments)
    (hdepth : a.depth_stencil_state = b.depth_stencil_state)
    (hflags : a.binding_flags = b.binding_flags)
    (hmax : a.variable_count_max = b.variable_count_max) :
    a.operatorEq b = true ∧
    hashPipelineBaseCreateInfo env a = hashPipelineBaseCreateInfo env b := by
  refine ⟨?_, ?_⟩
  · unfold PipelineBaseCreateInfo.operatorEq
    simp only [hshaders, hraster, hblend, hattachments, hdepth, hflags, hmax, decide_True,
      Bool.and_self]
  · unfold hashPipelineBaseCreateInfo
    rw [hshaders, hraster, hblend, hattachments, hdepth]

/-- Witness of C21: the same shader loaded from `a.vert` and from `b.vert` gives two values
with different `shader_paths` that compare equal and hash alike. -/
theorem pipeline_base_key_ignores_shader_paths_witness :
    (samplePipelineBase "a.vert").shader_paths ≠ (samplePipelineBase "b.vert").shader_paths ∧
    (samplePipelineBase "a.vert").operatorEq (samplePipelineBase "b.vert") = true ∧
    hashPipelineBaseCreateInfo sampleHashEnv (samplePipelineBase "a.vert") =
      hashPipelineBaseCreateInfo sampleHashEnv (samplePipelineBase "b.vert") :=
  ⟨by decide,
   pipeline_base_key_ignores_shader_paths sampleHashEnv (samplePipelineBase "a.vert")
     (samplePipelineBase "b.vert") rfl rfl rfl rfl rfl rfl rfl⟩

/-- C22: on a value with `shaders.size() == shader_paths.size()` below the capacity 5,
`add_shader(source, filename)` returns normally; both sizes have grown by one, the new
last elements are `source` and `filename`, all the earlier elements are unchanged, the
sizes are equal again and the pairs `(shaders[i], shader_paths[i])` are the earlier pairs
followed by `(source, filename)`; no other member changes. -/
theorem add_shader_keeps_sources_and_paths_paired {VUK_MAX_BINDINGS : Nat}
    (self : PipelineBaseCreateInfo VUK_MAX_BINDINGS) (source filename : String)
    (hsize : self.shaders.length = self.shader_paths.length)
    (hcap : self.shaders.length < 5) :
    ∃ s', self.add_shader source filename = .ok s' ∧
      s'.shaders = self.shaders ++ [source] ∧
      s'.shader_paths = self.shader_paths ++ [filename] ∧
      s'.shaders.length = self.shaders.length + 1 ∧
      s'.shader_paths.length = self.shader_paths.length + 1 ∧
      s'.shaders.length = s'.shader_paths.length ∧
      s'.shaders.getLast? = some source ∧ s'.shader_paths.getLast? = some filename ∧
      (∀ i, i < self.shaders.length →
        s'.shaders[i]? = self.shaders[i]? ∧ s'.shader_paths[i]? = self.shader_paths[i]?) ∧
      s'.shaders.zip s'.shader_paths =
        self.shaders.zip self.shader_paths ++ [(source, filename)] ∧
      s' = { self with shaders := self.shaders ++ [source],
                       shader_paths := self.shader_paths ++ [filename] } := by
  have hcap2 : self.shader_paths.length < 5 := by omega
  refine ⟨{ self with shaders := self.shaders ++ [source],
                       shader_paths := self.shader_paths ++ [filename] }, ?_, rfl, rfl, ?_, ?_,
    ?_, ?_, ?_, ?_, ?_, rfl⟩
  · unfold PipelineBaseCreateInfo.add_shader fixedVectorEmplaceBack
    simp only [hcap, hcap2, if_true]
    rfl
  · simp
  · simp
  · simp [hsize]
  · simp
  · simp
  · intro i hi
    constructor
    · simp only []
      rw [List.getElem?_append_left hi]
    · simp only []
      rw [List.getElem?_append_left (by omega)]
  · simp only []
    rw [List.zip_append hsize]
    rfl

/-- Witness of C22 on `samplePipelineBase`, which holds one shader: after
`add_shader("void frag() {}", "a.frag")` it holds two shaders paired with their paths. -/
theorem add_shader_keeps_sources_and_paths_paired_witness :
    ∃ s', (samplePipelineBase "a.vert").add_shader "void frag() {}" "a.frag" = .ok s' ∧
      s'.shaders.zip s'.shader_paths =
        [("void main() {}", "a.vert"), ("void frag() {}", "a.frag")] :=
  match add_shader_keeps_sources_and_paths_paired (samplePipelineBase "a.vert")
      "void frag() {}" "a.frag" rfl (by decide) with
  | ⟨s', h, _, _, _, _, _, _, _, _, hz, _⟩ => ⟨s', h, hz⟩

/-! ## Theorems: image usage flags -/

/-- Each enumerator of `ImageUsageFlagBits` is the single bit at its `bitIndex`. -/
theorem ImageUsageFlagBits.value_eq_two_pow (a : ImageUsageFlagBits) :
    a.value = 2 ^ a.bitIndex := by
  cases a <;> rfl

/-- Distinct enumerators of `ImageUsageFlagBits` have distinct bit positions. -/
theorem ImageUsageFlagBits.bitIndex_injective (a b : ImageUsageFlagBits)
    (h : a.bitIndex = b.bitIndex) : a = b := by
  cases a <;> cases b <;> first | rfl | (exact absurd h (by decide))

/-- A set of usage flags intersects the single bit of `bit` exactly when it contains
`bit`. -/
theorem Flags.and_ofBit_toBool (f : ImageUsageFlags) (bit : ImageUsageFlagBits) :
    (f.and (Flags.ofBit bit)).toBool = f.contains bit := by
  unfold Flags.and Flags.toBool Flags.contains Flags.ofBit
  simp only [ImageUsageFlagBits.value_eq_two_pow, Nat.and_two_pow]
  cases f.m_mask.testBit bit.bitIndex <;> simp

/-- The flags of a single enumerator contain exactly that enumerator. -/
theorem Flags.ofBit_contains (a c : ImageUsageFlagBits) :
    (Flags.ofBit a).contains c = decide (c = a) := by
  cases a <;> cases c <;> decide

/-- The union of two sets of flags contains what either contains. -/
theorem Flags.or_contains (f g : ImageUsageFlags) (c : ImageUsageFlagBits) :
    (f.or g).contains c = (f.contains c || g.contains c) := by
  unfold Flags.or Flags.contains
  exact Nat.testBit_or _ _ _

/-- C26: the operators on `ImageUsageFlagBits` compute the union, the intersection and
the symmetric difference of usage bits. For all enumerators `a`, `b`: the enumerators are
single bits and pairwise distinct; `a | b` has exactly the bits of `a` and of `b`, both as
mask bits and as contained usages; `a & b` is non-empty iff `a == b`; `a ^ b` equals
`a | b` when `a != b` and is empty when `a == b`; `|` is commutative and idempotent. -/
theorem image_usage_flag_bits_operators (a b : ImageUsageFlagBits) :
    (∃ k, a.value = 2 ^ k) ∧
    (a.value = b.value ↔ a = b) ∧
    (∀ k, (a.or b).m_mask.testBit k = (a.value.testBit k || b.value.testBit k)) ∧
    (∀ c : ImageUsageFlagBits, (a.or b).contains c = true ↔ c = a ∨ c = b) ∧
    ((a.and b).toBool = true ↔ a = b) ∧
    (a.xor b = if a = b then ⟨0⟩ else a.or b) ∧
    ((a.xor b).toBool = false ↔ a = b) ∧
    a.or b = b.or a ∧
    a.or a = Flags.ofBit a := by
  refine ⟨⟨a.bitIndex, a.value_eq_two_pow⟩, ?_, ?_, ?_, ?_, ?_, ?_, ?_, ?_⟩
  · cases a <;> cases b <;> decide
  · intro k
    exact Nat.testBit_or _ _ _
  · intro c
    unfold ImageUsageFlagBits.or
    rw [Flags.or_contains, Flags.ofBit_contains, Flags.ofBit_contains]
    simp
  · cases a <;> cases b <;> decide
  · cases a <;> cases b <;> decide
  · cases a <;> cases b <;> decide
  · unfold ImageUsageFlagBits.or Flags.or
    rw [Nat.lor_comm]
  · unfold ImageUsageFlagBits.or Flags.or Flags.ofBit
    rw [Nat.or_self]

/-! ## Theorems: name resolution in example 12 -/

/-- What `RenderGraph.declarationsResolve` decides: each declared name is attached to the
graph, or is the name written by an earlier pass followed by `+`. -/
theorem RenderGraph.declarationsResolve_spec (g : RenderGraph)
    (h : g.declarationsResolve = true) (j : Nat) (p : Pass) (hp : g.passes[j]? = some p)
    (d : Resource) (hd : d ∈ p.resources) :
    d.name ∈ g.attachments ∨
      ∃ i q w, i < j ∧ g.passes[i]? = some q ∧ w ∈ q.resources ∧
        w.access.isWrite = true ∧ d.name = w.name ++ "+" := by
  unfold RenderGraph.declarationsResolve at h
  rw [List.all_eq_true] at h
  have hj : j < g.passes.length := by
    rcases List.getElem?_eq_some_iff.mp hp with ⟨hlt, _⟩
    exact hlt
  have h1 := h j (List.mem_range.mpr hj)
  have hpj : g.passes.getD j ⟨[]⟩ = p := by
    rw [List.getD_eq_getElem?_getD, hp]
    rfl
  rw [hpj, List.all_eq_true] at h1
  have h2 := h1 d hd
  rw [Bool.or_eq_true] at h2
  rcases h2 with h2 | h2
  · left
    simpa using h2
  · right
    rw [List.any_eq_true] at h2
    obtain ⟨i, hi, h3⟩ := h2
    rw [List.any_eq_true] at h3
    obtain ⟨w, hw, h4⟩ := h3
    rw [Bool.and_eq_true] at h4
    have hij : i < j := List.mem_range.mp hi
    have hil : i < g.passes.length := by omega
    refine ⟨i, g.passes[i], w, hij, List.getElem?_eq_getElem hil, ?_, h4.1, ?_⟩
    · rw [List.getD_eq_getElem _ _ hil] at hw
      exact hw
    · simpa using h4.2

/-- C23: in both render graphs that example 12 builds (`as_build` in `setup`, `rg("12")` in
`render`), every resource name declared by a pass is either a name attached to the graph
or is `n` followed by `+` where a pass declared earlier in the same graph writes `n`. -/
theorem example12_declared_names_resolve (g : RenderGraph) (hg : g = as_build ∨ g = rg12)
    (j : Nat) (p : Pass) (hp : g.passes[j]? = some p) (d : Resource)
    (hd : d ∈ p.resources) :
    d.name ∈ g.attachments ∨
      ∃ i q w, i < j ∧ g.passes[i]? = some q ∧ w ∈ q.resources ∧
        w.access.isWrite = true ∧ d.name = w.name ++ "+" := by
  have h : g.declarationsResolve = true := by
    rcases hg with rfl | rfl <;> decide
  exact g.declarationsResolve_spec h j p hp d hd

/-- Witness of C23: the read of `tlas+` by the second pass of `rg("12")` is not an attached
name, and the first pass writes `tlas`. -/
theorem example12_declared_names_resolve_witness :
    "tlas+" ∉ rg12.attachments ∧
    ("tlas+" ∈ rg12.attachments ∨
      ∃ i q w, i < 1 ∧ rg12.passes[i]? = some q ∧ w ∈ q.resources ∧
        w.access.isWrite = true ∧ "tlas+" = w.name ++ "+") :=
  ⟨by decide,
   example12_declared_names_resolve rg12 (Or.inr rfl) 1
     ⟨[⟨"12_rt_target", .eRayTracingWrite⟩, ⟨"tlas+", .eRayTracingRead⟩]⟩ rfl
     ⟨"tlas+", .eRayTracingRead⟩ (by decide)⟩
/-! ## Theorems: the names attached in render-all mode -/

/-- The final output name of an example is not the name `_`. -/
theorem append_final_ne_underscore (exName : String) : exName ++ "_final" ≠ "_" := by
  intro h
  have h1 := congrArg String.length h
  rw [String.length_append] at h1
  have h2 : "_final".length = 6 := by decide
  have h3 : "_".length = 1 := by decide
  omega

/-- The final output name of an example is not the name `SWAPCHAIN`. -/
theorem append_final_ne_swapchain (exName : String) : exName ++ "_final" ≠ "SWAPCHAIN" := by
  intro h
  have h1 := congrArg (fun s => s.data.getLast?) h
  simp only [String.data_append] at h1
  have h2 : exName.data ++ ['_', 'f', 'i', 'n', 'a', 'l'] =
      (exName.data ++ ['_', 'f', 'i', 'n', 'a']) ++ ['l'] := by simp
  rw [h2, List.getLast?_concat] at h1
  revert h1
  decide

/-- Examples of different names have different final output names. -/
theorem append_final_injective (a b : String) (h : a ++ "_final" = b ++ "_final") :
    a = b := by
  have h1 := congrArg String.data h
  simp only [String.data_append] at h1
  exact String.ext (List.append_cancel_right h1)

/-- A list has no duplicates exactly when its elements other than `a` have none and `a`
occurs at most once. -/
theorem nodup_iff_filter_ne_and_count {α : Type} [DecidableEq α] (l : List α) (a : α) :
    l.Nodup ↔ (l.filter (fun x => x != a)).Nodup ∧ l.count a ≤ 1 := by
  rw [List.nodup_iff_count_le_one, List.nodup_iff_count_le_one]
  constructor
  · intro h
    refine ⟨fun x => ?_, h a⟩
    exact le_trans (List.Sublist.count_le (List.filter_sublist l) x) (h x)
  · rintro ⟨h1, h2⟩ x
    by_cases hx : x = a
    · rw [hx]
      exact h2
    · have h3 := h1 x
      rw [List.count_filter (by simpa using hx)] at h3
      exact h3

/-- The names that one iteration of the loop over the examples attaches. -/
theorem renderAllExample_attached (clicked : Nat → Option Name) (st : RunnerFrame) (i : Nat)
    (exName : String) (hi : i < st.chosen_resource.length) :
    (renderAllExample clicked st i exName).attached =
      st.attached ++ (exName ++ "_final") ::
        (if showsOtherResource clicked st.chosen_resource i exName then ["_"] else []) := by
  unfold renderAllExample showsOtherResource Name.is_invalid
  cases hc : clicked i with
  | none =>
    simp only [Option.getD_none]
    by_cases h1 : st.chosen_resource[i] = ""
    · simp [h1, hi, List.getD_eq_getElem?_getD]
    · by_cases h2 : st.chosen_resource[i] = exName ++ "_final"
      · have h3 : ¬exName ++ "_final" = "" := h2 ▸ h1
        simp [h2, h3, hi, List.getD_eq_getElem?_getD]
      · simp [h1, h2, hi, List.getD_eq_getElem?_getD]
  | some n =>
    simp only [Option.getD_some]
    by_cases h1 : n = ""
    · simp [h1, hi, List.getD_eq_getElem?_getD]
    · by_cases h2 : n = exName ++ "_final"
      · have h3 : ¬exName ++ "_final" = "" := h2 ▸ h1
        simp [h2, h3, hi, List.getD_eq_getElem?_getD]
      · simp [h1, h2, hi, List.getD_eq_getElem?_getD]

/-- One iteration of the loop keeps the size of `chosen_resource`. -/
theorem renderAllExample_chosen_length (clicked : Nat → Option Name) (st : RunnerFrame)
    (i : Nat) (exName : String) :
    (renderAllExample clicked st i exName).chosen_resource.length =
      st.chosen_resource.length := by
  unfold renderAllExample
  cases clicked i <;> simp only [] <;> split <;> split <;> simp

/-- One iteration of the loop only writes the element `i` of `chosen_resource`. -/
theorem renderAllExample_chosen_getD (clicked : Nat → Option Name) (st : RunnerFrame)
    (i k : Nat) (exName : String) (hk : i ≠ k) :
    (renderAllExample clicked st i exName).chosen_resource.getD k "" =
      st.chosen_resource.getD k "" := by
  unfold renderAllExample
  cases clicked i <;> simp only [] <;> split <;> split <;>
    simp [List.getD_eq_getElem?_getD, List.getElem?_set_ne hk]
/-- The names that the loop over the examples attaches, apart from the name `_`, are the
final output names of the examples, in order. -/
theorem renderAllLoop_attached_filter (clicked : Nat → Option Name) (examples : List String)
    (i : Nat) (st : RunnerFrame) (hlen : i + examples.length ≤ st.chosen_resource.length) :
    (renderAllLoop clicked examples i st).attached.filter (fun n => n != "_") =
      st.attached.filter (fun n => n != "_") ++
        examples.map (fun exName => exName ++ "_final") := by
  induction examples generalizing i st with
  | nil => simp [renderAllLoop]
  | cons exName rest ih =>
    have hi : i < st.chosen_resource.length := by
      simp only [List.length_cons] at hlen
      omega
    have hlen2 : i + 1 + rest.length ≤
        (renderAllExample clicked st i exName).chosen_resource.length := by
      rw [renderAllExample_chosen_length]
      simp only [List.length_cons] at hlen
      omega
    unfold renderAllLoop
    rw [ih (i + 1) _ hlen2, renderAllExample_attached clicked st i exName hi]
    have hne := append_final_ne_underscore exName
    cases showsOtherResource clicked st.chosen_resource i exName <;>
      simp [List.filter_cons, hne]

/-- The loop over the examples attaches the name `_` once for each example whose window
shows a resource other than its final output. -/
theorem renderAllLoop_attached_count (clicked : Nat → Option Name) (examples : List String)
    (i : Nat) (st : RunnerFrame) (hlen : i + examples.length ≤ st.chosen_resource.length) :
    (renderAllLoop clicked examples i st).attached.count "_" =
      st.attached.count "_" +
        ((examples.enumFrom i).filter
          (fun p => showsOtherResource clicked st.chosen_resource p.1 p.2)).length := by
  induction examples generalizing i st with
  | nil => simp [renderAllLoop]
  | cons exName rest ih =>
    have hi : i < st.chosen_resource.length := by
      simp only [List.length_cons] at hlen
      omega
    have hlen2 : i + 1 + rest.length ≤
        (renderAllExample clicked st i exName).chosen_resource.length := by
      rw [renderAllExample_chosen_length]
      simp only [List.length_cons] at hlen
      omega
    have hcongr : (rest.enumFrom (i + 1)).filter
          (fun p => showsOtherResource clicked
            (renderAllExample clicked st i exName).chosen_resource p.1 p.2) =
        (rest.enumFrom (i + 1)).filter
          (fun p => showsOtherResource clicked st.chosen_resource p.1 p.2) := by
      apply List.filter_congr
      intro p hp
      have hle : i + 1 ≤ p.1 := List.le_fst_of_mem_enumFrom hp
      unfold showsOtherResource
      rw [renderAllExample_chosen_getD clicked st i p.1 exName (by omega)]
    unfold renderAllLoop
    rw [ih (i + 1) _ hlen2, hcongr, renderAllExample_attached clicked st i exName hi]
    have hne := append_final_ne_underscore exName
    simp only [List.enumFrom_cons, List.filter_cons]
    cases showsOtherResource clicked st.chosen_resource i exName
    · simp [List.count_cons, hne]
    · simp [List.count_cons, hne]
      omega

/-- Counterexample to C24 as stated: with the two examples `01_triangle` and `02_cube`, of
distinct names, and a `chosen_resource` that selects in each window a resource other than
the final output, the names attached to the runner graph in one frame are `01_triangle_final`,
`_`, `02_cube_final`, `_`, `SWAPCHAIN`: the name `_` is attached twice. -/
theorem render_all_attaches_underscore_twice :
    ["01_triangle", "02_cube"].Nodup ∧
    (renderAll ["01_triangle", "02_cube"] (fun _ => none)
        ["01_triangle+", "02_cube_depth"]).attached =
      ["01_triangle_final", "_", "02_cube_final", "_", "SWAPCHAIN"] ∧
    ¬(renderAll ["01_triangle", "02_cube"] (fun _ => none)
        ["01_triangle+", "02_cube_depth"]).attached.Nodup := by
  refine ⟨by decide, by decide, by decide⟩

/-- C24 (amended): in render-all mode, when the registered examples have pairwise distinct
names and `chosen_resource` has one element per example, the names attached to the runner
graph in one frame, apart from the name `_`, are the final output names of the examples
followed by `SWAPCHAIN`, and they are pairwise distinct; the name `_` is attached once for
each example whose window shows a resource other than its final output; so all the
attached names are pairwise distinct exactly when at most one window does. -/
theorem render_all_attached_names_distinct_up_to_underscore (examples : List String)
    (clicked : Nat → Option Name) (chosen_resource : List Name)
    (hlen : chosen_resource.length = examples.length) (hnodup : examples.Nodup) :
    (renderAll examples clicked chosen_resource).attached.filter (fun n => n != "_") =
      examples.map (fun exName => exName ++ "_final") ++ ["SWAPCHAIN"] ∧
    ((renderAll examples clicked chosen_resource).attached.filter
      (fun n => n != "_")).Nodup ∧
    (renderAll examples clicked chosen_resource).attached.count "_" =
      (examples.enum.filter
        (fun p => showsOtherResource clicked chosen_resource p.1 p.2)).length ∧
    ((renderAll examples clicked chosen_resource).attached.Nodup ↔
      (examples.enum.filter
        (fun p => showsOtherResource clicked chosen_resource p.1 p.2)).length ≤ 1) := by
  have hfilter : (renderAll examples clicked chosen_resource).attached.filter
      (fun n => n != "_") = examples.map (fun exName => exName ++ "_final") ++ ["SWAPCHAIN"] := by
    unfold renderAll
    simp only [List.filter_append]
    rw [renderAllLoop_attached_filter clicked examples 0 ⟨[], chosen_resource⟩
      (by simp only [Nat.zero_add]; exact le_of_eq hlen.symm)]
    simp only [List.filter_nil, List.nil_append]
    rfl
  have hcount : (renderAll examples clicked chosen_resource).attached.count "_" =
      (examples.enum.filter
        (fun p => showsOtherResource clicked chosen_resource p.1 p.2)).length := by
    unfold renderAll
    simp only [List.count_append]
    rw [renderAllLoop_attached_count clicked examples 0 ⟨[], chosen_resource⟩
      (by simp only [Nat.zero_add]; exact le_of_eq hlen.symm)]
    have h0 : List.count "_" ["SWAPCHAIN"] = 0 := by decide
    rw [h0]
    simp [List.enum]
  have hnd : ((renderAll examples clicked chosen_resource).attached.filter
      (fun n => n != "_")).Nodup := by
    rw [hfilter, List.nodup_append]
    refine ⟨?_, List.nodup_singleton _, ?_⟩
    · exact List.Nodup.map (fun a b h => append_final_injective a b h) hnodup
    · intro n hn hs
      rw [List.mem_map] at hn
      obtain ⟨exName, _, rfl⟩ := hn
      rw [List.mem_singleton] at hs
      exact append_final_ne_swapchain exName hs
  refine ⟨hfilter, hnd, hcount, ?_⟩
  rw [nodup_iff_filter_ne_and_count _ "_", hcount]
  exact ⟨fun h => h.2, fun h => ⟨hnd, h⟩⟩

/-- Witness of the amended C24: with the examples `01_triangle` and `02_cube`, when only
the window of the first shows a resource other than its final output, the attached names
are pairwise distinct. -/
theorem render_all_attached_names_distinct_up_to_underscore_witness :
    (renderAll ["01_triangle", "02_cube"] (fun _ => none)
        ["01_triangle+", ""]).attached.filter (fun n => n != "_") =
      ["01_triangle_final", "02_cube_final", "SWAPCHAIN"] ∧
    (renderAll ["01_triangle", "02_cube"] (fun _ => none) ["01_triangle+", ""]).attached.Nodup :=
  have h := render_all_attached_names_distinct_up_to_underscore ["01_triangle", "02_cube"]
    (fun _ => none) ["01_triangle+", ""] rfl (by decide)
  ⟨h.1, h.2.2.2.mpr (by decide)⟩
/-! ## Theorems: the labels of the example browser -/

/-- A set of usage flags intersects `eTransferSrc | eTransferDst` exactly when it contains
one of the two. -/
theorem Flags.and_transfer_toBool (f : ImageUsageFlags) :
    (f.and (ImageUsageFlagBits.or .eTransferSrc .eTransferDst)).toBool =
      (f.contains .eTransferSrc || f.contains .eTransferDst) := by
  unfold Flags.and Flags.toBool Flags.contains ImageUsageFlagBits.or Flags.or Flags.ofBit
  simp only [ImageUsageFlagBits.value_eq_two_pow, Nat.and_or_distrib_left, Nat.and_two_pow]
  cases f.m_mask.testBit ImageUsageFlagBits.eTransferSrc.bitIndex <;>
    cases f.m_mask.testBit ImageUsageFlagBits.eTransferDst.bitIndex <;> decide

/-- The string `btn_id` of a use chain is its label letter followed by ` (MS)` when the
label is disabled, and by `##` and the key otherwise; the label of the final output name
is never disabled. -/
theorem buttonId_eq {U : Type} (compute_usage : U → ImageUsageFlags)
    (attachment_name_out : Name) (disable : Bool) (key : Name) (use_refs : U) :
    buttonId compute_usage attachment_name_out disable key use_refs =
      labelLetter attachment_name_out key (compute_usage use_refs) ++
        (if disable = true ∧ key ≠ attachment_name_out then " (MS)" else "##" ++ key) := by
  unfold buttonId labelLetter
  simp only [Flags.and_ofBit_toBool, Flags.and_transfer_toBool]
  by_cases hk : key = attachment_name_out
  · simp [hk]
  · cases disable <;>
      cases (compute_usage use_refs).contains .eColorAttachment <;>
      cases (compute_usage use_refs).contains .eDepthStencilAttachment <;>
      cases (compute_usage use_refs).contains .eTransferSrc <;>
      cases (compute_usage use_refs).contains .eTransferDst <;>
      simp [hk]
/-- Counterexample to C25 as stated: not every use chain is labelled. A fragment whose only
use chain is that of its final output name gets no label, so that key is not labelled `F`;
and in a fragment with two use chains, the use chain of `offscreen`, which has no bound
attachment and whose usage contains `eColorAttachment`, gets no label, so no letter `C`. -/
theorem browser_leaves_use_chains_unlabelled :
    browserButtons (fun u : ImageUsageFlags => u) "01_triangle_final"
        [("01_triangle_final", Flags.ofBit .eColorAttachment)]
        [("01_triangle_final", ⟨⟨.e1, false⟩⟩)] = [] ∧
    browserButtons (fun u : ImageUsageFlags => u) "01_triangle_final"
        [("01_triangle_final", Flags.ofBit .eColorAttachment),
         ("offscreen", Flags.ofBit .eColorAttachment)]
        [("01_triangle_final", ⟨⟨.e1, false⟩⟩)] =
      [("01_triangle_final", "F##01_triangle_final")] := by
  refine ⟨by decide, by decide⟩

/-- C25 (amended): the example browser labels the use chains of a fragment that has more
than one use chain, and of these the ones whose key has a bound attachment, in iteration
order; a fragment with at most one use chain gets no label. The label of such a use chain
is its letter followed by ` (MS)` when a bound attachment is multisampled and the key is
not the final output name, and by `##` and the key otherwise. The letter is `F` when the
key is the final output name, regardless of usage; otherwise `C` if the computed usage
contains `eColorAttachment`, otherwise `D` if it contains `eDepthStencilAttachment`,
otherwise `X` if it contains `eTransferSrc` or `eTransferDst`, otherwise no letter. -/
theorem browser_labels_bound_use_chains {U : Type} (compute_usage : U → ImageUsageFlags)
    (attachment_name_out : Name) (use_chains : List (Name × U))
    (bound_attachments : List (Name × AttachmentInfo)) :
    browserButtons compute_usage attachment_name_out use_chains bound_attachments =
      if 1 < use_chains.length then
        (use_chains.filter (fun kv => (bound_attachments.lookup kv.1).isSome)).map
          (fun kv =>
            (kv.1,
              (if kv.1 = attachment_name_out then "F"
               else if (compute_usage kv.2).contains .eColorAttachment then "C"
               else if (compute_usage kv.2).contains .eDepthStencilAttachment then "D"
               else if (compute_usage kv.2).contains .eTransferSrc ||
                 (compute_usage kv.2).contains .eTransferDst then "X"
               else "") ++
              (if browserDisable use_chains bound_attachments = true ∧
                  kv.1 ≠ attachment_name_out then " (MS)"
               else "##" ++ kv.1)))
      else [] := by
  have hmap : ∀ (disable : Bool) (l : List (Name × U)),
      l.filterMap (fun kv =>
        match bound_attachments.lookup kv.1 with
        | none => none
        | some _ => some (kv.1, buttonId compute_usage attachment_name_out disable kv.1 kv.2)) =
      (l.filter (fun kv => (bound_attachments.lookup kv.1).isSome)).map
        (fun kv => (kv.1, buttonId compute_usage attachment_name_out disable kv.1 kv.2)) := by
    intro disable l
    induction l with
    | nil => rfl
    | cons kv rest ih =>
      simp only [List.filterMap_cons, List.filter_cons]
      cases hb : bound_attachments.lookup kv.1 with
      | none =>
        simp only [Option.isSome_none, Bool.false_eq_true, if_false]
        exact ih
      | some att =>
        simp only [Option.isSome_some, if_true, List.map_cons]
        rw [ih]
  unfold browserButtons
  by_cases hsize : 1 < use_chains.length
  · simp only [gt_iff_lt, hsize, if_true]
    rw [hmap]
    simp only [buttonId_eq, labelLetter]
  · simp only [gt_iff_lt, hsize, if_false]

/-- Witness of the amended C25: a fragment with six use chains, five of them with a bound
attachment; the labels carry `F`, `C`, `D`, `X` and no letter, and the colour attachment
that is also a transfer source is labelled `C`. -/
theorem browser_labels_bound_use_chains_witness :
    browserButtons (fun u : ImageUsageFlags => u) "04_texture_final"
        [("04_texture_final", Flags.ofBit .eColorAttachment),
         ("04_color", ImageUsageFlagBits.or .eColorAttachment .eTransferSrc),
         ("04_depth", ImageUsageFlagBits.or .eDepthStencilAttachment .eSampled),
         ("04_upload", Flags.ofBit .eTransferDst),
         ("04_sampled", Flags.ofBit .eSampled),
         ("04_verts", Flags.ofBit .eTransferDst)]
        [("04_texture_final", ⟨⟨.e1, false⟩⟩), ("04_color", ⟨⟨.e1, false⟩⟩),
         ("04_depth", ⟨⟨.e1, true⟩⟩), ("04_upload", ⟨⟨.e1, false⟩⟩),
         ("04_sampled", ⟨⟨.e1, false⟩⟩)] =
      [("04_texture_final", "F##04_texture_final"), ("04_color", "C##04_color"),
       ("04_depth", "D##04_depth"), ("04_upload", "X##04_upload"),
       ("04_sampled", "##04_sampled")] :=
  (browser_labels_bound_use_chains (fun u : ImageUsageFlags => u) "04_texture_final"
    _ _).trans (by decide)

end vuk
